import Mathlib

/-!
Verification of the workflow execution engine
(`core-services/workflow-engine-svc/workflow_engine.py`).

The engine is embedded shallowly.  Collaborator behaviour (the Tool, the
Context Store and the Audit Sink) is a parameter `Env`; Python exceptions
are modelled as `Except String` / `Option String` values carrying the
`str(e)` message, and every observable side effect of a run (tool
invocations, backoff sleeps, audit emissions, cleanup calls, step-status
assignments) is recorded in an explicit action trace.  Audit-event payload
dictionaries (params, durations) are abstracted away; only the event kind
and the step name are kept.  Tool results (`Dict[str, Any]`) are opaque and
modelled as `Nat`.  Wall-clock timestamps are modelled as set/unset flags.
-/

/-- Status of a workflow execution (`WorkflowStatus` in the source). -/
inductive WorkflowStatus
  | pending
  | running
  | completed
  | failed
  | cancelled
  | paused
deriving DecidableEq, Repr

/-- Status of a workflow step (`WorkflowStepStatus` in the source). -/
inductive WorkflowStepStatus
  | pending
  | running
  | completed
  | failed
  | skipped
deriving DecidableEq, Repr

/-- Outcome of one tool invocation: a result, an exception with message
`msg` (`str(e)`), or an `asyncio.TimeoutError`. -/
inductive ToolOutcome
  | success (v : Nat)
  | failure (msg : String)
  | timeout
deriving DecidableEq, Repr

/-- Audit events passed to `logging_service.log_audit_event`; step-level
events carry the step name (payload details are abstracted). -/
inductive AuditEvent
  | workflowStarted
  | workflowCompleted
  | workflowFailed
  | workflowCancelled
  | workflowPaused
  | workflowResumed
  | stepStarted (name : String)
  | stepCompleted (name : String)
  | stepFailed (name : String)
deriving DecidableEq, Repr

/-- Observable actions of a run, in program order. `invokeTool i tries`
records the call `step.tool.execute(**step.params)` for the step at index
`i` on the attempt with counter value `tries` (0-based, the value of the
Python variable `tries` at call time).  `sleep s` records
`asyncio.sleep(s)`.  `emit e` records a successful audit-sink call.
`runCleanup i` records `step.cleanup()`.  `setStatus i s` records the
assignment `step.status = s` for the step at index `i`. -/
inductive RunAction
  | invokeTool (i : Nat) (tries : Nat)
  | sleep (seconds : Nat)
  | emit (e : AuditEvent)
  | runCleanup (i : Nat)
  | setStatus (i : Nat) (s : WorkflowStepStatus)
deriving DecidableEq, Repr

/-- A workflow step (`WorkflowStep.__init__`).  The zero-argument boolean
condition callables are modelled by their evaluation results. -/
structure WorkflowStep where
  name : String
  conditions : List Bool := []
  retryCount : Nat := 3
  timeout : Nat := 300
  hasCleanup : Bool := false
  status : WorkflowStepStatus := .pending
  result : Option Nat := none
  error : Option String := none
  startTime : Bool := false
  endTime : Bool := false
deriving DecidableEq, Repr

/-- A workflow (`SecurityWorkflow.__init__`): the fields the engine reads
and writes.  `results` is the Python dict, kept as an insertion-ordered
association list. -/
structure SecurityWorkflow where
  name : String
  steps : List WorkflowStep
  status : WorkflowStatus := .pending
  currentStep : Nat := 0
  results : List (String × Nat) := []
  startTime : Bool := false
  endTime : Bool := false
deriving DecidableEq, Repr

/-- Behaviour of the external collaborators during a run.
`tool i t` is the outcome of the tool call for step `i` with attempt
counter `t`; `sink e` is `none` when `log_audit_event` succeeds and
`some msg` when it raises an exception with message `msg`; `ctxCreate`
and `ctxUpdate i` likewise model `create_context` / `update_context`. -/
structure Env where
  tool : Nat → Nat → ToolOutcome
  sink : AuditEvent → Option String := fun _ => none
  ctxCreate : Option String := none
  ctxUpdate : Nat → Option String := fun _ => none

/-- Python dict assignment `results[step.name] = step_result`: overwrite
the entry when the key is present, append otherwise. -/
def setResult (rs : List (String × Nat)) (k : String) (v : Nat) : List (String × Nat) :=
  if rs.any (fun p => p.1 == k) then rs.map (fun p => if p.1 == k then (k, v) else p)
  else rs ++ [(k, v)]

/-- Number of entries under key `k` (0 or 1 for a dict). -/
def entryCount (rs : List (String × Nat)) (k : String) : Nat :=
  (rs.filter (fun p => p.1 == k)).length

/-- Dict lookup `results[k]`. -/
def lookupResult (rs : List (String × Nat)) (k : String) : Option Nat :=
  (rs.find? (fun p => p.1 == k)).map (fun p => p.2)

/-- `str(last_error)`: Python prints `None` for an unset error. -/
def optErrStr : Option String → String
  | none => "None"
  | some s => s

/-- Message of the `WorkflowError` raised on step exhaustion
(line 294 of the source). -/
def stepFailMsg (name : String) (tries : Nat) (last : Option String) : String :=
  "Step " ++ name ++ " failed after " ++ toString tries ++ " attempts: " ++ optErrStr last

/-- Per-attempt timeout message (line 271 of the source). -/
def timeoutMsg (t : Nat) : String :=
  "Step timed out after " ++ toString t ++ " seconds"

/-- Message of the `WorkflowError` raised by `execute`'s per-step handler
(line 183 of the source). -/
def wfAbortMsg (name : String) (msg : String) : String :=
  "Workflow failed at step " ++ name ++ ": " ++ msg

/-- `conditionsMet st` is `all(cond() for cond in step.conditions)`. -/
def conditionsMet (st : WorkflowStep) : Bool :=
  st.conditions.all id

/-- Result of `_execute_step`: the mutated step, the trace, and either the
returned result or the message of the propagated exception. -/
structure StepOut where
  step : WorkflowStep
  trace : List RunAction
  ret : Except String Nat
deriving Repr

/-- The retry loop of `_execute_step` (lines 243-296).  `tries` is the
Python counter, `remaining = step.retry_count - tries` drives the
recursion, `lastError` is `last_error`.  On a successful tool call the
step is marked Completed and `step_completed` is logged; an exception
raised by that audit call is caught by the generic `except` of the loop
and treated as a failed attempt.  After the attempts are exhausted the
step is marked Failed, `step_failed` is logged (an exception from that
call propagates in place of the `WorkflowError`), and the wrapped
`WorkflowError` message is raised. -/
def attemptLoop (env : Env) (i : Nat) (st : WorkflowStep) (tries remaining : Nat)
    (lastError : Option String) : StepOut :=
  match remaining with
  | 0 =>
    let st' := { st with status := .failed, endTime := true, error := lastError }
    match env.sink (.stepFailed st.name) with
    | some m => ⟨st', [RunAction.setStatus i .failed], .error m⟩
    | none =>
      ⟨st', [RunAction.setStatus i .failed, RunAction.emit (.stepFailed st.name)],
        .error (stepFailMsg st.name tries lastError)⟩
  | r + 1 =>
    match env.tool i tries with
    | .success v =>
      let st' := { st with status := .completed, endTime := true, result := some v }
      match env.sink (.stepCompleted st.name) with
      | none =>
        ⟨st', [RunAction.invokeTool i tries, RunAction.setStatus i .completed,
               RunAction.emit (.stepCompleted st.name)], .ok v⟩
      | some m =>
        let o := attemptLoop env i st' (tries + 1) r (some m)
        if r = 0 then
          ⟨o.step, RunAction.invokeTool i tries :: RunAction.setStatus i .completed :: o.trace, o.ret⟩
        else
          ⟨o.step, RunAction.invokeTool i tries :: RunAction.setStatus i .completed ::
            RunAction.sleep (2 ^ (tries + 1)) :: o.trace, o.ret⟩
    | .failure msg =>
      let o := attemptLoop env i st (tries + 1) r (some msg)
      if r = 0 then ⟨o.step, RunAction.invokeTool i tries :: o.trace, o.ret⟩
      else ⟨o.step, RunAction.invokeTool i tries :: RunAction.sleep (2 ^ (tries + 1)) :: o.trace, o.ret⟩
    | .timeout =>
      let o := attemptLoop env i st (tries + 1) r (some (timeoutMsg st.timeout))
      if r = 0 then ⟨o.step, RunAction.invokeTool i tries :: o.trace, o.ret⟩
      else ⟨o.step, RunAction.invokeTool i tries :: RunAction.sleep (2 ^ (tries + 1)) :: o.trace, o.ret⟩

/-- `_execute_step` (lines 218-296): record start time, mark the step
Running, log `step_started` (an exception from the sink propagates to the
caller), then run the retry loop. -/
def runStep (env : Env) (i : Nat) (st : WorkflowStep) : StepOut :=
  let st0 := { st with startTime := true, status := .running }
  match env.sink (.stepStarted st.name) with
  | some m => ⟨st0, [RunAction.setStatus i .running], .error m⟩
  | none =>
    let o := attemptLoop env i st0 0 st.retryCount none
    ⟨o.step, RunAction.setStatus i .running :: RunAction.emit (.stepStarted st.name) :: o.trace, o.ret⟩

/-- The per-step `except` handler of `execute` (lines 165-182): mark the
step Failed, store `str(e)` as its error, and best-effort invoke its
cleanup (a cleanup failure is only logged). -/
def failStepState (i : Nat) (st : WorkflowStep) (msg : String) :
    WorkflowStep × List RunAction :=
  ({ st with status := .failed, error := some msg },
   RunAction.setStatus i .failed ::
     (if st.hasCleanup then [RunAction.runCleanup i] else []))

/-- Result of the step loop of `execute`. -/
structure LoopOut where
  steps : List WorkflowStep
  results : List (String × Nat)
  cur : Nat
  trace : List RunAction
  err : Option String
deriving Repr

/-- The `for i, step in enumerate(self.steps)` loop of `execute`
(lines 146-183).  `done` holds the already-visited prefix, `rest` the
remaining steps, `cur` the value of `current_step`.  Each iteration sets
`current_step`, checks the gating conditions (Skipped steps are passed
over with no tool call, no step-level audit event and no results entry),
runs the step, stores its result, pushes the context update, and on any
exception runs the per-step handler and aborts with the wrapped
`WorkflowError` message. -/
def execSteps (env : Env) (done rest : List WorkflowStep)
    (results : List (String × Nat)) (cur : Nat) : LoopOut :=
  match rest with
  | [] => ⟨done, results, cur, [], none⟩
  | st :: rest' =>
    let i := done.length
    if conditionsMet st then
      let so := runStep env i st
      match so.ret with
      | .ok v =>
        let results' := setResult results st.name v
        match env.ctxUpdate i with
        | none =>
          let o := execSteps env (done ++ [so.step]) rest' results' i
          ⟨o.steps, o.results, o.cur, so.trace ++ o.trace, o.err⟩
        | some m =>
          let p := failStepState i so.step m
          ⟨done ++ p.1 :: rest', results', i, so.trace ++ p.2, some (wfAbortMsg st.name m)⟩
      | .error m =>
        let p := failStepState i so.step m
        ⟨done ++ p.1 :: rest', results, i, so.trace ++ p.2, some (wfAbortMsg st.name m)⟩
    else
      let o := execSteps env (done ++ [{ st with status := .skipped }]) rest' results i
      ⟨o.steps, o.results, o.cur, RunAction.setStatus i .skipped :: o.trace, o.err⟩

/-- Result of `execute` / `resume`: the mutated workflow, the trace, and
either the value of `get_results()` (abstracted to the results dict) or
the message of the raised `WorkflowError` / propagated exception. -/
structure ExecOut where
  wf : SecurityWorkflow
  trace : List RunAction
  ret : Except String (List (String × Nat))
deriving Repr

/-- The workflow-level `except` handler of `execute` (lines 201-216):
mark the workflow Failed, record the end time, log `workflow_failed` (an
exception from the sink propagates in place of the `WorkflowError`), and
re-raise the wrapped message. -/
def workflowFail (env : Env) (wf : SecurityWorkflow) (tr : List RunAction) (msg : String) :
    ExecOut :=
  let wf' := { wf with status := .failed, endTime := true }
  match env.sink .workflowFailed with
  | some m => ⟨wf', tr, .error m⟩
  | none =>
    ⟨wf', tr ++ [RunAction.emit .workflowFailed],
      .error ("Workflow execution failed: " ++ msg)⟩

/-- `execute` (lines 114-216): record the start time, mark the workflow
Running, create the context, log `workflow_started`, run the step loop,
and on success mark the workflow Completed, log `workflow_completed` and
return the results.  Any exception reaches the workflow-level handler. -/
def SecurityWorkflow.execute (env : Env) (wf : SecurityWorkflow) : ExecOut :=
  let wf1 := { wf with startTime := true, status := .running }
  match env.ctxCreate with
  | some m => workflowFail env wf1 [] m
  | none =>
    match env.sink .workflowStarted with
    | some m => workflowFail env wf1 [] m
    | none =>
      let o := execSteps env [] wf1.steps wf1.results wf1.currentStep
      let wf2 := { wf1 with steps := o.steps, results := o.results, currentStep := o.cur }
      let tr := RunAction.emit .workflowStarted :: o.trace
      match o.err with
      | some m => workflowFail env wf2 tr m
      | none =>
        let wf3 := { wf2 with status := .completed, endTime := true }
        match env.sink .workflowCompleted with
        | some m => workflowFail env wf3 tr m
        | none => ⟨wf3, tr ++ [RunAction.emit .workflowCompleted], .ok wf3.results⟩

/-- Exception propagating out of `cancel`: the unguarded
`self.steps[self.current_step]` (line 353) raising `IndexError`, or an
exception of the audit sink. -/
inductive CancelError
  | indexError
  | sinkFail (msg : String)
deriving DecidableEq, Repr

/-- Result of `cancel`. -/
structure CancelOut where
  wf : SecurityWorkflow
  trace : List RunAction
  err : Option CancelError
deriving Repr

/-- `cancel` (lines 346-376): only when the workflow is Running, mark it
Cancelled and record the end time, then read `steps[current_step]`
(raising `IndexError` when out of range); if that step is Running mark it
Failed with error "Cancelled by user", best-effort run its cleanup, and
log `workflow_cancelled`. -/
def SecurityWorkflow.cancel (env : Env) (wf : SecurityWorkflow) : CancelOut :=
  if wf.status = .running then
    let wf1 := { wf with status := .cancelled, endTime := true }
    match wf1.steps[wf.currentStep]? with
    | none => ⟨wf1, [], some .indexError⟩
    | some st =>
      if st.status = .running then
        let st' := { st with status := .failed, endTime := true, error := some "Cancelled by user" }
        let wf2 := { wf1 with steps := wf1.steps.set wf.currentStep st' }
        let tr := RunAction.setStatus wf.currentStep .failed ::
          (if st.hasCleanup then [RunAction.runCleanup wf.currentStep] else [])
        match env.sink .workflowCancelled with
        | some m => ⟨wf2, tr, some (.sinkFail m)⟩
        | none => ⟨wf2, tr ++ [RunAction.emit .workflowCancelled], none⟩
      else
        match env.sink .workflowCancelled with
        | some m => ⟨wf1, [], some (.sinkFail m)⟩
        | none => ⟨wf1, [RunAction.emit .workflowCancelled], none⟩
  else ⟨wf, [], none⟩

/-- `pause` (lines 378-391): only when Running, mark Paused and log
`workflow_paused`. -/
def SecurityWorkflow.pause (env : Env) (wf : SecurityWorkflow) :
    SecurityWorkflow × List RunAction × Option String :=
  if wf.status = .running then
    let wf1 := { wf with status := .paused }
    match env.sink .workflowPaused with
    | some m => (wf1, [], some m)
    | none => (wf1, [RunAction.emit .workflowPaused], none)
  else (wf, [], none)

/-- Result of `resume`: `ret = none` when the workflow was not Paused,
otherwise the outcome of the re-entered `execute`, with `.error m` also
covering an exception of the `workflow_resumed` sink call. -/
structure ResumeOut where
  wf : SecurityWorkflow
  trace : List RunAction
  ret : Option (Except String (List (String × Nat)))
deriving Repr

/-- `resume` (lines 393-409): only when Paused, mark Running, log
`workflow_resumed`, then call `execute()` again. -/
def SecurityWorkflow.resume (env : Env) (wf : SecurityWorkflow) : ResumeOut :=
  if wf.status = .paused then
    let wf1 := { wf with status := .running }
    match env.sink .workflowResumed with
    | some m => ⟨wf1, [], some (.error m)⟩
    | none =>
      let o := SecurityWorkflow.execute env wf1
      ⟨o.wf, RunAction.emit .workflowResumed :: o.trace, some o.ret⟩
  else ⟨wf, [], none⟩

/-- A step in its freshly constructed state (`WorkflowStep.__init__`). -/
def WorkflowStep.Pristine (st : WorkflowStep) : Prop :=
  st.status = .pending ∧ st.result = none ∧ st.error = none ∧
    st.startTime = false ∧ st.endTime = false

/-- A workflow in its freshly constructed state
(`SecurityWorkflow.__init__`). -/
def SecurityWorkflow.InitState (wf : SecurityWorkflow) : Prop :=
  wf.status = .pending ∧ wf.currentStep = 0 ∧ wf.results = [] ∧
    wf.startTime = false ∧ wf.endTime = false ∧
    ∀ st ∈ wf.steps, st.Pristine

/-- Total number of tool invocations in a trace. -/
def totalInvokes (tr : List RunAction) : Nat :=
  (tr.filter fun a => match a with
    | .invokeTool _ _ => true
    | _ => false).length

/-- The backoff sleeps of a trace, in order. -/
def sleepsOf (tr : List RunAction) : List Nat :=
  tr.filterMap fun a => match a with
    | .sleep s => some s
    | _ => none

/-- Tool invocations and sleeps only (used to express the position of the
sleeps relative to the attempts). -/
def isToolOrSleep (a : RunAction) : Bool :=
  match a with
  | .invokeTool _ _ => true
  | .sleep _ => true
  | _ => false

/-- The sequence of statuses assigned to the step at index `j` during a
run, in program order. -/
def statusHistory (j : Nat) (tr : List RunAction) : List WorkflowStepStatus :=
  tr.filterMap fun a => match a with
    | .setStatus k s => if k = j then some s else none
    | _ => none

/-- Number of cleanup invocations for the step at index `j`. -/
def cleanupCount (j : Nat) (tr : List RunAction) : Nat :=
  (tr.filter fun a => match a with
    | .runCleanup k => k == j
    | _ => false).length

/-- The step-status transition relation asserted by the specification:
Pending to Running, Running to Completed, Running to Failed, Pending to
Skipped (re-assignment of the current status is not a transition). -/
def claimedStepRel (a b : WorkflowStepStatus) : Bool :=
  a == b ||
    (a == .pending && b == .running) || (a == .running && b == .completed) ||
    (a == .running && b == .failed) || (a == .pending && b == .skipped)

/-- The transition relation the code actually obeys: additionally a
Completed step may be overwritten to Failed when a failure strikes after
its tool call succeeded. -/
def stepRel (a b : WorkflowStepStatus) : Bool :=
  claimedStepRel a b || (a == .completed && b == .failed)

/-- `chainOK rel l` holds when every adjacent pair of `l` satisfies
`rel`; applied to `pending ::` a status history it states that every
status transition of a step is allowed by `rel`. -/
def chainOK (rel : WorkflowStepStatus → WorkflowStepStatus → Bool) :
    List WorkflowStepStatus → Bool
  | a :: b :: l => rel a b && chainOK rel (b :: l)
  | _ => true

/-- `true` when `_execute_step` raised rather than returned. -/
def retFailed : Except String Nat → Bool
  | .ok _ => false
  | .error _ => true

/-- The iteration for the step at index `i` aborts the loop of `execute`:
its conditions pass and either `_execute_step` raises or the subsequent
context update raises. -/
def stepAborts (env : Env) (i : Nat) (st : WorkflowStep) : Prop :=
  conditionsMet st = true ∧
    (retFailed (runStep env i st).ret = true ∨ (env.ctxUpdate i).isSome = true)

instance (env : Env) (i : Nat) (st : WorkflowStep) : Decidable (stepAborts env i st) :=
  inferInstanceAs (Decidable (conditionsMet st = true ∧
    (retFailed (runStep env i st).ret = true ∨ (env.ctxUpdate i).isSome = true)))

/-- Trailing trace of the exhaustion branch: the `step_failed` emission,
present only when the sink call succeeds. -/
def failEmit (env : Env) (nm : String) : List RunAction :=
  match env.sink (.stepFailed nm) with
  | some _ => []
  | none => [RunAction.emit (.stepFailed nm)]

/-- Expected attempt/backoff trace of the retry loop for a tool that
never succeeds: starting at counter `tries` with `r` attempts left, the
attempts interleaved with sleeps of `2 ^ attempt` seconds, and no sleep
after the final attempt. -/
def retryTrace (i : Nat) : Nat → Nat → List RunAction
  | _, 0 => []
  | tries, 1 => [RunAction.invokeTool i tries]
  | tries, r + 2 =>
    RunAction.invokeTool i tries :: RunAction.sleep (2 ^ (tries + 1)) ::
      retryTrace i (tries + 1) (r + 1)

theorem attemptLoop_allFail (env : Env) (i : Nat)
    (hf : ∀ t v, env.tool i t ≠ ToolOutcome.success v) :
    ∀ (r tries : Nat) (st : WorkflowStep) (le : Option String),
      (attemptLoop env i st tries r le).trace =
        retryTrace i tries r ++ RunAction.setStatus i .failed :: failEmit env st.name := by
  intro r
  induction r with
  | zero =>
    intro tries st le
    simp only [attemptLoop, retryTrace, failEmit]
    cases hs : env.sink (.stepFailed st.name) <;> simp
  | succ r ih =>
    intro tries st le
    simp only [attemptLoop]
    cases ht : env.tool i tries with
    | success v => exact absurd ht (hf tries v)
    | failure msg =>
      by_cases hr : r = 0
      · subst hr
        simp [ih, retryTrace]
      · obtain ⟨r2, rfl⟩ := Nat.exists_eq_succ_of_ne_zero hr
        simp [ih, retryTrace]
    | timeout =>
      by_cases hr : r = 0
      · subst hr
        simp [ih, retryTrace]
      · obtain ⟨r2, rfl⟩ := Nat.exists_eq_succ_of_ne_zero hr
        simp [ih, retryTrace]

theorem retryTrace_totalInvokes (i : Nat) :
    ∀ r tries, totalInvokes (retryTrace i tries r) = r := by
  intro r
  induction r using Nat.strong_induction_on with
  | _ r ih =>
    intro tries
    match r with
    | 0 => simp [retryTrace, totalInvokes]
    | 1 => simp [retryTrace, totalInvokes]
    | r + 2 =>
      have h := ih (r + 1) (by omega) (tries + 1)
      simp [retryTrace, totalInvokes] at h ⊢
      omega

theorem retryTrace_sleeps (i : Nat) :
    ∀ r tries, sleepsOf (retryTrace i tries r) =
      (List.range (r - 1)).map (fun k => 2 ^ (tries + 1 + k)) := by
  intro r
  induction r using Nat.strong_induction_on with
  | _ r ih =>
    intro tries
    match r with
    | 0 => simp [retryTrace, sleepsOf]
    | 1 => simp [retryTrace, sleepsOf]
    | r + 2 =>
      have h := ih (r + 1) (by omega) (tries + 1)
      simp only [retryTrace, sleepsOf, List.filterMap_cons] at h ⊢
      rw [h]
      have h2 : r + 2 - 1 = (r + 1 - 1) + 1 := by omega
      rw [h2, List.range_succ_eq_map, List.map_cons, List.map_map]
      have h3 : ((fun k => 2 ^ (tries + 1 + k)) ∘ Nat.succ) =
          (fun k => 2 ^ (tries + 1 + 1 + k)) := by
        funext k
        simp only [Function.comp_apply]
        congr 1
        omega
      rw [h3]

theorem retryTrace_mem_toolOrSleep (i : Nat) :
    ∀ r tries a, a ∈ retryTrace i tries r → isToolOrSleep a = true := by
  intro r
  induction r using Nat.strong_induction_on with
  | _ r ih =>
    intro tries a ha
    match r with
    | 0 => simp [retryTrace] at ha
    | 1 =>
      simp [retryTrace] at ha
      simp [ha, isToolOrSleep]
    | r + 2 =>
      simp only [retryTrace, List.mem_cons] at ha
      rcases ha with h | h | h
      · simp [h, isToolOrSleep]
      · simp [h, isToolOrSleep]
      · exact ih (r + 1) (by omega) (tries + 1) a h

theorem getLast?_cons_ne {α : Type} (a : α) (l : List α) (h : l ≠ []) :
    (a :: l).getLast? = l.getLast? := by
  cases l with
  | nil => exact absurd rfl h
  | cons b l2 => exact List.getLast?_cons_cons

theorem retryTrace_getLast (i : Nat) :
    ∀ r tries, 1 ≤ r →
      (retryTrace i tries r).getLast? = some (.invokeTool i (tries + r - 1)) := by
  intro r
  induction r using Nat.strong_induction_on with
  | _ r ih =>
    intro tries hr
    match r with
    | 1 => simp [retryTrace]
    | r + 2 =>
      have h := ih (r + 1) (by omega) (tries + 1) (by omega)
      have hne : retryTrace i (tries + 1) (r + 1) ≠ [] := by
        intro hcon
        rw [hcon] at h
        simp at h
      simp only [retryTrace, List.getLast?_cons_cons]
      rw [getLast?_cons_ne _ _ hne, h]
      congr 2
      omega

theorem runStep_allFail_trace (env : Env) (i : Nat) (st : WorkflowStep)
    (hfail : ∀ t v, env.tool i t ≠ ToolOutcome.success v)
    (hstart : env.sink (.stepStarted st.name) = none) :
    (runStep env i st).trace =
      RunAction.setStatus i .running :: RunAction.emit (.stepStarted st.name) ::
        (retryTrace i 0 st.retryCount ++
          RunAction.setStatus i .failed :: failEmit env st.name) := by
  simp [runStep, hstart, attemptLoop_allFail env i hfail]

/-- Claim C1: for a step whose tool fails deterministically on every
attempt and whose retryCount is at least 1, the retry executor invokes
the tool exactly retryCount times; the backoff sleeps between consecutive
attempts are exactly 2 ^ attempt seconds for attempt = 1, ..,
retryCount - 1 (attempt counted from 1), hence non-decreasing; and the
last tool-or-sleep action of the trace is a tool invocation, so no sleep
occurs after the final attempt. -/
theorem retry_executor_bound (env : Env) (i : Nat) (st : WorkflowStep)
    (hrc : 1 ≤ st.retryCount)
    (hfail : ∀ t v, env.tool i t ≠ ToolOutcome.success v)
    (hstart : env.sink (.stepStarted st.name) = none) :
    totalInvokes (runStep env i st).trace = st.retryCount ∧
    sleepsOf (runStep env i st).trace =
      (List.range (st.retryCount - 1)).map (fun k => 2 ^ (k + 1)) ∧
    List.Chain' (fun a b => a ≤ b) (sleepsOf (runStep env i st).trace) ∧
    ((runStep env i st).trace.filter isToolOrSleep).getLast? =
      some (RunAction.invokeTool i (st.retryCount - 1)) := by
  have htr := runStep_allFail_trace env i st hfail hstart
  have hsleeps : sleepsOf (runStep env i st).trace =
      (List.range (st.retryCount - 1)).map (fun k => 2 ^ (k + 1)) := by
    rw [htr]
    simp only [sleepsOf, List.filterMap_cons, List.filterMap_append]
    rw [show (List.filterMap (fun a => match a with
        | RunAction.sleep s => some s
        | _ => none) (retryTrace i 0 st.retryCount)) =
        sleepsOf (retryTrace i 0 st.retryCount) from rfl]
    rw [retryTrace_sleeps i st.retryCount 0]
    have hfe : List.filterMap (fun a => match a with
        | RunAction.sleep s => some s
        | _ => none) (failEmit env st.name) = [] := by
      unfold failEmit
      cases env.sink (.stepFailed st.name) <;> simp
    rw [hfe]
    simp only [List.append_nil]
    apply List.map_congr_left
    intro k _
    congr 1
    omega
  refine ⟨?_, hsleeps, ?_, ?_⟩
  · rw [htr]
    simp only [totalInvokes, List.filter_cons, List.filter_append]
    have hfe : List.filter (fun a => match a with
        | RunAction.invokeTool _ _ => true
        | _ => false) (failEmit env st.name) = [] := by
      unfold failEmit
      cases env.sink (.stepFailed st.name) <;> simp
    have hrt := retryTrace_totalInvokes i st.retryCount 0
    simp only [totalInvokes] at hrt
    simp [hfe, hrt]
  · rw [hsleeps]
    rw [List.chain'_map]
    cases hn : st.retryCount - 1 with
    | zero => simp
    | succ n =>
      rw [List.chain'_range_succ]
      intro m _
      exact Nat.pow_le_pow_right (by norm_num) (by omega)
  · rw [htr]
    simp only [List.filter_cons, List.filter_append]
    have hfe : List.filter isToolOrSleep (failEmit env st.name) = [] := by
      unfold failEmit
      cases env.sink (.stepFailed st.name) <;> simp [isToolOrSleep]
    have hself : List.filter isToolOrSleep (retryTrace i 0 st.retryCount) =
        retryTrace i 0 st.retryCount :=
      List.filter_eq_self.mpr (retryTrace_mem_toolOrSleep i st.retryCount 0)
    simp only [isToolOrSleep, hfe]
    simp only [show (List.filter isToolOrSleep (retryTrace i 0 st.retryCount)) =
      retryTrace i 0 st.retryCount from hself]
    have hlast := retryTrace_getLast i st.retryCount 0 hrc
    simp only [Nat.zero_add] at hlast
    simp [hself, hlast, isToolOrSleep]

def envC1 : Env := { tool := fun _ _ => .failure "connection refused" }

def stC1 : WorkflowStep := { name := "scan", retryCount := 3 }

/-- Witness for C1 at a concrete three-attempt step. -/
theorem retry_executor_bound_witness :
    totalInvokes (runStep envC1 0 stC1).trace = 3 ∧
    sleepsOf (runStep envC1 0 stC1).trace = [2, 4] ∧
    List.Chain' (fun a b => a ≤ b) (sleepsOf (runStep envC1 0 stC1).trace) ∧
    ((runStep envC1 0 stC1).trace.filter isToolOrSleep).getLast? =
      some (RunAction.invokeTool 0 2) := by
  have h := retry_executor_bound envC1 0 stC1 (by decide)
    (by intro t v h; simp [envC1] at h) (by rfl)
  obtain ⟨h1, h2, h3, h4⟩ := h
  refine ⟨h1, ?_, h3, h4⟩
  rw [h2]
  decide

/-- Claim C5: on a Running workflow whose current step is Running,
`cancel` marks the workflow Cancelled with an end time, marks that step
Failed with error exactly "Cancelled by user" and an end time, and runs
its cleanup exactly once when present (never otherwise); on a workflow
that is not Running, `cancel` changes nothing at all. -/
theorem cancel_semantics (env : Env) (wf : SecurityWorkflow) (st : WorkflowStep) :
    (wf.status = .running →
      wf.steps[wf.currentStep]? = some st →
      st.status = .running →
      (SecurityWorkflow.cancel env wf).wf.status = .cancelled ∧
      (SecurityWorkflow.cancel env wf).wf.endTime = true ∧
      (SecurityWorkflow.cancel env wf).wf.steps[wf.currentStep]? =
        some { st with status := .failed, endTime := true,
                       error := some "Cancelled by user" } ∧
      cleanupCount wf.currentStep (SecurityWorkflow.cancel env wf).trace =
        (if st.hasCleanup then 1 else 0)) ∧
    (wf.status ≠ .running →
      SecurityWorkflow.cancel env wf = ⟨wf, [], none⟩) := by
  constructor
  · intro h1 h2 h3
    have hlt : wf.currentStep < wf.steps.length := by
      rcases List.getElem?_eq_some.mp h2 with ⟨h, _⟩
      exact h
    cases hs : env.sink .workflowCancelled <;>
      cases hc : st.hasCleanup <;>
        simp [SecurityWorkflow.cancel, h1, h2, h3, hs, hc, cleanupCount,
          List.getElem?_set_self hlt]
  · intro h
    simp [SecurityWorkflow.cancel, h]

def envC5 : Env := { tool := fun _ _ => .success 0 }

def stepC5 : WorkflowStep := { name := "probe", status := .running, hasCleanup := true }

def wfC5 : SecurityWorkflow :=
  { name := "w5", steps := [stepC5], status := .running, currentStep := 0 }

def wfC5idle : SecurityWorkflow :=
  { name := "w5b", steps := [stepC5], status := .completed, currentStep := 0 }

/-- Witness for C5: both arms at concrete inputs. -/
theorem cancel_semantics_witness :
    ((SecurityWorkflow.cancel envC5 wfC5).wf.status = .cancelled ∧
     (SecurityWorkflow.cancel envC5 wfC5).wf.endTime = true ∧
     (SecurityWorkflow.cancel envC5 wfC5).wf.steps[0]? =
       some { stepC5 with status := .failed, endTime := true,
                          error := some "Cancelled by user" } ∧
     cleanupCount 0 (SecurityWorkflow.cancel envC5 wfC5).trace = 1) ∧
    SecurityWorkflow.cancel envC5 wfC5idle = ⟨wfC5idle, [], none⟩ := by
  have h := (cancel_semantics envC5 wfC5 stepC5).1 rfl (by decide) rfl
  have h2 := (cancel_semantics envC5 wfC5idle stepC5).2 (by decide)
  exact ⟨⟨h.1, h.2.1, h.2.2.1, by simpa using h.2.2.2⟩, h2⟩

/-- Claim C10: `cancel` on a Running workflow with an empty steps list and
`currentStep = 0` hits the unguarded `steps[current_step]` access and
raises `IndexError`, emitting no `workflow_cancelled` event (the
cancellation is not completed), although the workflow status and end time
were already mutated. -/
theorem cancel_empty_steps_indexError (env : Env) (wf : SecurityWorkflow)
    (hrun : wf.status = .running) (hsteps : wf.steps = [])
    (hcur : wf.currentStep = 0) :
    (SecurityWorkflow.cancel env wf).err = some .indexError ∧
    (SecurityWorkflow.cancel env wf).trace = [] ∧
    (SecurityWorkflow.cancel env wf).wf.status = .cancelled := by
  simp [SecurityWorkflow.cancel, hrun, hsteps, hcur]

def wfC10 : SecurityWorkflow := { name := "w10", steps := [], status := .running }

/-- Witness for C10 at a concrete empty workflow. -/
theorem cancel_empty_steps_indexError_witness :
    (SecurityWorkflow.cancel envC1 wfC10).err = some .indexError ∧
    (SecurityWorkflow.cancel envC1 wfC10).trace = [] ∧
    (SecurityWorkflow.cancel envC1 wfC10).wf.status = .cancelled :=
  cancel_empty_steps_indexError envC1 wfC10 rfl rfl rfl

def envC3 : Env := { tool := fun i t => .success (40 + 2 * i + t) }

def stepC3done : WorkflowStep :=
  { name := "s1", status := .completed, result := some 1, startTime := true, endTime := true }

def wfC3 : SecurityWorkflow :=
  { name := "w3", steps := [stepC3done, { name := "s2" }], status := .paused,
    currentStep := 1, results := [("s1", 1)], startTime := true }

/-- Claim C3 (code bug): on a Paused workflow whose step 0 is already
Completed with a stored result and whose currentStepIndex is 1, `resume`
does mark the workflow Running and emit `workflow_resumed`, but then
re-enters `execute`, which restarts the loop at index 0: step 0's tool is
re-invoked, its `step_started` audit event is re-emitted, and its results
entry is overwritten (1 becomes 40). -/
theorem resume_restarts_from_step_zero :
    RunAction.emit .workflowResumed ∈ (SecurityWorkflow.resume envC3 wfC3).trace ∧
    RunAction.invokeTool 0 0 ∈ (SecurityWorkflow.resume envC3 wfC3).trace ∧
    RunAction.emit (.stepStarted "s1") ∈ (SecurityWorkflow.resume envC3 wfC3).trace ∧
    lookupResult wfC3.results "s1" = some 1 ∧
    lookupResult (SecurityWorkflow.resume envC3 wfC3).wf.results "s1" = some 40 := by
  decide

def envC4 : Env :=
  { tool := fun _ t => if t = 0 then .success 7 else .failure "boom",
    sink := fun e => match e with
      | .stepCompleted _ => some "sink down"
      | _ => none }

def wfC4 : SecurityWorkflow := { name := "w4", steps := [{ name := "s1", retryCount := 2 }] }

/-- Claim C4 (code bug): with a tool that succeeds on its first attempt
and an audit sink that fails on `step_completed`, the sink failure is
caught by the retry loop as an attempt failure: the already-successful
tool call is re-invoked (2 invocations), the step ends Failed, and the
workflow ends Failed — the sink failure changed the execution outcome. -/
theorem audit_failure_changes_outcome :
    envC4.tool 0 0 = .success 7 ∧
    totalInvokes (SecurityWorkflow.execute envC4 wfC4).trace = 2 ∧
    ((SecurityWorkflow.execute envC4 wfC4).wf.steps[0]?.map (fun s => s.status)) =
      some .failed ∧
    (SecurityWorkflow.execute envC4 wfC4).wf.status = .failed := by
  decide

def envC2x : Env := { tool := fun _ _ => .success 5, ctxUpdate := fun _ => some "ctx down" }

def wfC2x : SecurityWorkflow := { name := "w2", steps := [{ name := "s1" }] }

/-- Counterexample to C2 as stated: after a context-store update failure
that follows a successful tool call, the step's status is Failed yet its
entry is still in `results`. -/
theorem results_invariant_counterexample :
    ((SecurityWorkflow.execute envC2x wfC2x).wf.steps[0]?.map (fun s => s.status)) =
      some .failed ∧
    entryCount (SecurityWorkflow.execute envC2x wfC2x).wf.results "s1" = 1 := by
  decide

def envC7x : Env := { tool := fun _ _ => .success 5, ctxUpdate := fun _ => some "" }

def wfC7x : SecurityWorkflow := { name := "w7", steps := [{ name := "s1" }] }

/-- Counterexample to C7 as stated: a context-store failure whose
exception message is empty marks the step Failed with an empty error. -/
theorem failed_step_empty_error_counterexample :
    ((SecurityWorkflow.execute envC7x wfC7x).wf.steps[0]?.map (fun s => s.status)) =
      some .failed ∧
    ((SecurityWorkflow.execute envC7x wfC7x).wf.steps[0]?.map (fun s => s.error)) =
      some (some "") := by
  decide

def envC8x : Env := { tool := fun _ _ => .success 9, ctxUpdate := fun _ => some "ctx down" }

def wfC8x : SecurityWorkflow := { name := "w8", steps := [{ name := "s1" }] }

/-- Counterexample to C8 as stated: a run in which step 0's status history
is Running, Completed, Failed — the adjacent pair (Completed, Failed) is a
transition out of Completed, which the claimed transition relation
forbids. -/
theorem step_transitions_counterexample :
    statusHistory 0 (SecurityWorkflow.execute envC8x wfC8x).trace =
      [.running, .completed, .failed] ∧
    chainOK claimedStepRel
        (.pending :: statusHistory 0 (SecurityWorkflow.execute envC8x wfC8x).trace) = false := by
  decide

theorem attemptLoop_exhaust_sinkFail (env : Env) (i tries : Nat) (st : WorkflowStep)
    (le : Option String) (m : String) (hs : env.sink (.stepFailed st.name) = some m) :
    attemptLoop env i st tries 0 le =
      ⟨{ st with status := .failed, endTime := true, error := le },
       [RunAction.setStatus i .failed], .error m⟩ := by
  simp [attemptLoop, hs]

theorem attemptLoop_exhaust_emit (env : Env) (i tries : Nat) (st : WorkflowStep)
    (le : Option String) (hs : env.sink (.stepFailed st.name) = none) :
    attemptLoop env i st tries 0 le =
      ⟨{ st with status := .failed, endTime := true, error := le },
       [RunAction.setStatus i .failed, RunAction.emit (.stepFailed st.name)],
       .error (stepFailMsg st.name tries le)⟩ := by
  simp [attemptLoop, hs]

theorem attemptLoop_succ_success (env : Env) (i tries r : Nat) (st : WorkflowStep)
    (le : Option String) (v : Nat) (ht : env.tool i tries = .success v)
    (hs : env.sink (.stepCompleted st.name) = none) :
    attemptLoop env i st tries (r + 1) le =
      ⟨{ st with status := .completed, endTime := true, result := some v },
       [RunAction.invokeTool i tries, RunAction.setStatus i .completed,
        RunAction.emit (.stepCompleted st.name)], .ok v⟩ := by
  simp [attemptLoop, ht, hs]

theorem attemptLoop_succ_success_sinkFail (env : Env) (i tries r : Nat)
    (st : WorkflowStep) (le : Option String) (v : Nat) (m : String)
    (ht : env.tool i tries = .success v)
    (hs : env.sink (.stepCompleted st.name) = some m) :
    attemptLoop env i st tries (r + 1) le =
      ⟨(attemptLoop env i { st with status := .completed, endTime := true, result := some v }
          (tries + 1) r (some m)).step,
       RunAction.invokeTool i tries :: RunAction.setStatus i .completed ::
         ((if r = 0 then [] else [RunAction.sleep (2 ^ (tries + 1))]) ++
           (attemptLoop env i { st with status := .completed, endTime := true, result := some v }
             (tries + 1) r (some m)).trace),
       (attemptLoop env i { st with status := .completed, endTime := true, result := some v }
         (tries + 1) r (some m)).ret⟩ := by
  by_cases hr : r = 0 <;> simp [attemptLoop, ht, hs, hr]

theorem attemptLoop_succ_failure (env : Env) (i tries r : Nat) (st : WorkflowStep)
    (le : Option String) (msg : String) (ht : env.tool i tries = .failure msg) :
    attemptLoop env i st tries (r + 1) le =
      ⟨(attemptLoop env i st (tries + 1) r (some msg)).step,
       RunAction.invokeTool i tries ::
         ((if r = 0 then [] else [RunAction.sleep (2 ^ (tries + 1))]) ++
           (attemptLoop env i st (tries + 1) r (some msg)).trace),
       (attemptLoop env i st (tries + 1) r (some msg)).ret⟩ := by
  by_cases hr : r = 0 <;> simp [attemptLoop, ht, hr]

theorem attemptLoop_succ_timeout (env : Env) (i tries r : Nat) (st : WorkflowStep)
    (le : Option String) (ht : env.tool i tries = .timeout) :
    attemptLoop env i st tries (r + 1) le =
      ⟨(attemptLoop env i st (tries + 1) r (some (timeoutMsg st.timeout))).step,
       RunAction.invokeTool i tries ::
         ((if r = 0 then [] else [RunAction.sleep (2 ^ (tries + 1))]) ++
           (attemptLoop env i st (tries + 1) r (some (timeoutMsg st.timeout))).trace),
       (attemptLoop env i st (tries + 1) r (some (timeoutMsg st.timeout))).ret⟩ := by
  by_cases hr : r = 0 <;> simp [attemptLoop, ht, hr]

theorem runStep_sinkFail (env : Env) (i : Nat) (st : WorkflowStep) (m : String)
    (hs : env.sink (.stepStarted st.name) = some m) :
    runStep env i st =
      ⟨{ st with startTime := true, status := .running },
       [RunAction.setStatus i .running], .error m⟩ := by
  simp [runStep, hs]

theorem runStep_eq (env : Env) (i : Nat) (st : WorkflowStep)
    (hs : env.sink (.stepStarted st.name) = none) :
    runStep env i st =
      ⟨(attemptLoop env i { st with startTime := true, status := .running }
          0 st.retryCount none).step,
       RunAction.setStatus i .running :: RunAction.emit (.stepStarted st.name) ::
         (attemptLoop env i { st with startTime := true, status := .running }
           0 st.retryCount none).trace,
       (attemptLoop env i { st with startTime := true, status := .running }
         0 st.retryCount none).ret⟩ := by
  simp [runStep, hs]

theorem attemptLoop_policy (env : Env) (i : Nat) :
    ∀ (r tries : Nat) (st : WorkflowStep) (le : Option String),
      (attemptLoop env i st tries r le).step.name = st.name ∧
      (attemptLoop env i st tries r le).step.hasCleanup = st.hasCleanup ∧
      (attemptLoop env i st tries r le).step.conditions = st.conditions ∧
      (attemptLoop env i st tries r le).step.retryCount = st.retryCount := by
  intro r
  induction r with
  | zero =>
    intro tries st le
    cases hs : env.sink (.stepFailed st.name) with
    | none => rw [attemptLoop_exhaust_emit env i tries st le hs]; simp
    | some m => rw [attemptLoop_exhaust_sinkFail env i tries st le m hs]; simp
  | succ r ih =>
    intro tries st le
    cases ht : env.tool i tries with
    | success v =>
      cases hs : env.sink (.stepCompleted st.name) with
      | none => rw [attemptLoop_succ_success env i tries r st le v ht hs]; simp
      | some m =>
        rw [attemptLoop_succ_success_sinkFail env i tries r st le v m ht hs]
        simpa using ih (tries + 1)
          { st with status := .completed, endTime := true, result := some v } (some m)
    | failure msg =>
      rw [attemptLoop_succ_failure env i tries r st le msg ht]
      simpa using ih (tries + 1) st (some msg)
    | timeout =>
      rw [attemptLoop_succ_timeout env i tries r st le ht]
      simpa using ih (tries + 1) st (some (timeoutMsg st.timeout))

theorem attemptLoop_ok (env : Env) (i : Nat) :
    ∀ (r tries : Nat) (st : WorkflowStep) (le : Option String) (v : Nat),
      (attemptLoop env i st tries r le).ret = .ok v →
      (attemptLoop env i st tries r le).step.status = .completed ∧
      (attemptLoop env i st tries r le).step.result = some v := by
  intro r
  induction r with
  | zero =>
    intro tries st le v h
    cases hs : env.sink (.stepFailed st.name) with
    | none => rw [attemptLoop_exhaust_emit env i tries st le hs] at h; simp at h
    | some m => rw [attemptLoop_exhaust_sinkFail env i tries st le m hs] at h; simp at h
  | succ r ih =>
    intro tries st le v h
    cases ht : env.tool i tries with
    | success w =>
      cases hs : env.sink (.stepCompleted st.name) with
      | none =>
        rw [attemptLoop_succ_success env i tries r st le w ht hs] at h ⊢
        simp at h
        simp [h]
      | some m =>
        rw [attemptLoop_succ_success_sinkFail env i tries r st le w m ht hs] at h ⊢
        exact ih _ _ _ v h
    | failure msg =>
      rw [attemptLoop_succ_failure env i tries r st le msg ht] at h ⊢
      exact ih _ _ _ v h
    | timeout =>
      rw [attemptLoop_succ_timeout env i tries r st le ht] at h ⊢
      exact ih _ _ _ v h

theorem attemptLoop_error_shape (env : Env) (i : Nat) :
    ∀ (r tries : Nat) (st : WorkflowStep) (le : Option String) (m : String),
      (attemptLoop env i st tries r le).ret = .error m →
      (∃ nm tr le2, m = stepFailMsg nm tr le2) ∨ (∃ e, env.sink e = some m) := by
  intro r
  induction r with
  | zero =>
    intro tries st le m h
    cases hs : env.sink (.stepFailed st.name) with
    | none =>
      rw [attemptLoop_exhaust_emit env i tries st le hs] at h
      simp at h
      exact Or.inl ⟨st.name, tries, le, h.symm⟩
    | some m2 =>
      rw [attemptLoop_exhaust_sinkFail env i tries st le m2 hs] at h
      simp at h
      refine Or.inr ⟨.stepFailed st.name, ?_⟩
      rw [hs, h]
  | succ r ih =>
    intro tries st le m h
    cases ht : env.tool i tries with
    | success w =>
      cases hs : env.sink (.stepCompleted st.name) with
      | none =>
        rw [attemptLoop_succ_success env i tries r st le w ht hs] at h
        simp at h
      | some m2 =>
        rw [attemptLoop_succ_success_sinkFail env i tries r st le w m2 ht hs] at h
        exact ih _ _ _ m h
    | failure msg =>
      rw [attemptLoop_succ_failure env i tries r st le msg ht] at h
      exact ih _ _ _ m h
    | timeout =>
      rw [attemptLoop_succ_timeout env i tries r st le ht] at h
      exact ih _ _ _ m h

theorem stepFailMsg_ne_empty (nm : String) (tr : Nat) (le : Option String) :
    stepFailMsg nm tr le ≠ "" := by
  intro h
  have hl := congrArg String.length h
  simp only [stepFailMsg, String.length_append] at hl
  have e1 : ("Step " : String).length = 5 := rfl
  have e2 : (" failed after " : String).length = 14 := rfl
  have e3 : (" attempts: " : String).length = 11 := rfl
  have e4 : ("" : String).length = 0 := rfl
  omega

theorem runStep_policy (env : Env) (i : Nat) (st : WorkflowStep) :
    (runStep env i st).step.name = st.name ∧
    (runStep env i st).step.hasCleanup = st.hasCleanup ∧
    (runStep env i st).step.conditions = st.conditions := by
  cases hs : env.sink (.stepStarted st.name) with
  | some m => rw [runStep_sinkFail env i st m hs]; simp
  | none =>
    rw [runStep_eq env i st hs]
    have h := attemptLoop_policy env i st.retryCount 0
      { st with startTime := true, status := .running } none
    simp at h ⊢
    exact ⟨h.1, h.2.1, h.2.2.1⟩

theorem runStep_ok (env : Env) (i : Nat) (st : WorkflowStep) (v : Nat)
    (h : (runStep env i st).ret = .ok v) :
    (runStep env i st).step.status = .completed ∧
    (runStep env i st).step.result = some v := by
  cases hs : env.sink (.stepStarted st.name) with
  | some m => rw [runStep_sinkFail env i st m hs] at h; simp at h
  | none =>
    rw [runStep_eq env i st hs] at h ⊢
    exact attemptLoop_ok env i st.retryCount 0 _ none v h

theorem runStep_error_shape (env : Env) (i : Nat) (st : WorkflowStep) (m : String)
    (h : (runStep env i st).ret = .error m) :
    (∃ nm tr le2, m = stepFailMsg nm tr le2) ∨ (∃ e, env.sink e = some m) := by
  cases hs : env.sink (.stepStarted st.name) with
  | some m2 =>
    rw [runStep_sinkFail env i st m2 hs] at h
    simp at h
    refine Or.inr ⟨.stepStarted st.name, ?_⟩
    rw [hs, h]
  | none =>
    rw [runStep_eq env i st hs] at h
    exact attemptLoop_error_shape env i st.retryCount 0 _ none m h

theorem runStep_error_ne_empty (env : Env) (i : Nat) (st : WorkflowStep) (m : String)
    (hsink : ∀ e m2, env.sink e = some m2 → m2 ≠ "")
    (h : (runStep env i st).ret = .error m) : m ≠ "" := by
  rcases runStep_error_shape env i st m h with ⟨nm, tr, le2, rfl⟩ | ⟨e, he⟩
  · exact stepFailMsg_ne_empty nm tr le2
  · exact hsink e m he

/-- Every action of one step execution concerns that step: tool calls,
cleanups and status assignments carry its index, step-level audit events
carry its name. -/
def aboutStep (i : Nat) (nm : String) (a : RunAction) : Prop :=
  match a with
  | .invokeTool k _ => k = i
  | .runCleanup k => k = i
  | .setStatus k _ => k = i
  | .sleep _ => True
  | .emit (.stepStarted n) => n = nm
  | .emit (.stepCompleted n) => n = nm
  | .emit (.stepFailed n) => n = nm
  | .emit _ => False

theorem attemptLoop_about (env : Env) (i : Nat) :
    ∀ (r tries : Nat) (st : WorkflowStep) (le : Option String) (a : RunAction),
      a ∈ (attemptLoop env i st tries r le).trace → aboutStep i st.name a := by
  intro r
  induction r with
  | zero =>
    intro tries st le a ha
    cases hs : env.sink (.stepFailed st.name) with
    | none =>
      rw [attemptLoop_exhaust_emit env i tries st le hs] at ha
      simp at ha
      rcases ha with h | h <;> subst h <;> simp [aboutStep]
    | some m =>
      rw [attemptLoop_exhaust_sinkFail env i tries st le m hs] at ha
      simp at ha
      subst ha
      simp [aboutStep]
  | succ r ih =>
    intro tries st le a ha
    cases ht : env.tool i tries with
    | success v =>
      cases hs : env.sink (.stepCompleted st.name) with
      | none =>
        rw [attemptLoop_succ_success env i tries r st le v ht hs] at ha
        simp at ha
        rcases ha with h | h | h <;> subst h <;> simp [aboutStep]
      | some m =>
        rw [attemptLoop_succ_success_sinkFail env i tries r st le v m ht hs] at ha
        simp at ha
        rcases ha with h | h | h | h
        · subst h; simp [aboutStep]
        · subst h; simp [aboutStep]
        · rcases h with ⟨h1, h2⟩
          subst h2
          simp [aboutStep]
        · have := ih (tries + 1)
            { st with status := .completed, endTime := true, result := some v } (some m) a h
          simpa using this
    | failure msg =>
      rw [attemptLoop_succ_failure env i tries r st le msg ht] at ha
      simp at ha
      rcases ha with h | h | h
      · subst h; simp [aboutStep]
      · rcases h with ⟨h1, h2⟩
        subst h2
        simp [aboutStep]
      · exact ih (tries + 1) st (some msg) a h
    | timeout =>
      rw [attemptLoop_succ_timeout env i tries r st le ht] at ha
      simp at ha
      rcases ha with h | h | h
      · subst h; simp [aboutStep]
      · rcases h with ⟨h1, h2⟩
        subst h2
        simp [aboutStep]
      · exact ih (tries + 1) st (some (timeoutMsg st.timeout)) a h

theorem runStep_about (env : Env) (i : Nat) (st : WorkflowStep) (a : RunAction)
    (ha : a ∈ (runStep env i st).trace) : aboutStep i st.name a := by
  cases hs : env.sink (.stepStarted st.name) with
  | some m =>
    rw [runStep_sinkFail env i st m hs] at ha
    simp at ha
    subst ha
    simp [aboutStep]
  | none =>
    rw [runStep_eq env i st hs] at ha
    simp at ha
    rcases ha with h | h | h
    · subst h; simp [aboutStep]
    · subst h; simp [aboutStep]
    · have := attemptLoop_about env i st.retryCount 0
        { st with startTime := true, status := .running } none a h
      simpa using this

theorem statusHistory_append (j : Nat) (t1 t2 : List RunAction) :
    statusHistory j (t1 ++ t2) = statusHistory j t1 ++ statusHistory j t2 := by
  simp [statusHistory, List.filterMap_append]

theorem statusHistory_cons_set_same (i : Nat) (s : WorkflowStepStatus)
    (tr : List RunAction) :
    statusHistory i (RunAction.setStatus i s :: tr) = s :: statusHistory i tr := by
  simp [statusHistory, List.filterMap_cons]

theorem statusHistory_cons_invoke (i k t : Nat) (tr : List RunAction) :
    statusHistory i (RunAction.invokeTool k t :: tr) = statusHistory i tr := by
  simp [statusHistory, List.filterMap_cons]

theorem statusHistory_cons_sleep (i s : Nat) (tr : List RunAction) :
    statusHistory i (RunAction.sleep s :: tr) = statusHistory i tr := by
  simp [statusHistory, List.filterMap_cons]

theorem statusHistory_cons_emit (i : Nat) (e : AuditEvent) (tr : List RunAction) :
    statusHistory i (RunAction.emit e :: tr) = statusHistory i tr := by
  simp [statusHistory, List.filterMap_cons]

theorem statusHistory_cons_cleanup (i k : Nat) (tr : List RunAction) :
    statusHistory i (RunAction.runCleanup k :: tr) = statusHistory i tr := by
  simp [statusHistory, List.filterMap_cons]

theorem statusHistory_nil (j : Nat) : statusHistory j [] = [] := by
  simp [statusHistory]

theorem statusHistory_nil_of_about (i j : Nat) (nm : String) (tr : List RunAction)
    (hab : ∀ a ∈ tr, aboutStep i nm a) (hj : j ≠ i) :
    statusHistory j tr = [] := by
  induction tr with
  | nil => simp [statusHistory]
  | cons a tr ih =>
    have ha := hab a (by simp)
    have htail := ih (fun b hb => hab b (by simp [hb]))
    cases a with
    | setStatus k s =>
      simp only [aboutStep] at ha
      subst ha
      simp [statusHistory, List.filterMap_cons, Ne.symm hj] at htail ⊢
      simpa [statusHistory] using htail
    | invokeTool k t => simpa [statusHistory, List.filterMap_cons] using htail
    | sleep s => simpa [statusHistory, List.filterMap_cons] using htail
    | emit e => simpa [statusHistory, List.filterMap_cons] using htail
    | runCleanup k => simpa [statusHistory, List.filterMap_cons] using htail

/-- The last element of a status history, with the status before the
history as the default. -/
def lastStatus (d : WorkflowStepStatus) : List WorkflowStepStatus → WorkflowStepStatus
  | [] => d
  | s :: l => lastStatus s l

theorem attemptLoop_hist (env : Env) (i : Nat) :
    ∀ (r tries : Nat) (st : WorkflowStep) (le : Option String),
      (st.status = .running ∨ st.status = .completed) →
      chainOK stepRel
        (st.status :: statusHistory i (attemptLoop env i st tries r le).trace) = true ∧
      stepRel
        (lastStatus st.status (statusHistory i (attemptLoop env i st tries r le).trace))
        .failed = true := by
  intro r
  induction r with
  | zero =>
    intro tries st le hst
    cases hs : env.sink (.stepFailed st.name) with
    | none =>
      rw [attemptLoop_exhaust_emit env i tries st le hs]
      rcases hst with h | h <;>
        simp [h, statusHistory, chainOK, stepRel, claimedStepRel, lastStatus]
    | some m =>
      rw [attemptLoop_exhaust_sinkFail env i tries st le m hs]
      rcases hst with h | h <;>
        simp [h, statusHistory, chainOK, stepRel, claimedStepRel, lastStatus]
  | succ r ih =>
    intro tries st le hst
    cases ht : env.tool i tries with
    | success v =>
      cases hs : env.sink (.stepCompleted st.name) with
      | none =>
        rw [attemptLoop_succ_success env i tries r st le v ht hs]
        rcases hst with h | h <;>
          simp [h, statusHistory, chainOK, stepRel, claimedStepRel, lastStatus]
      | some m =>
        rw [attemptLoop_succ_success_sinkFail env i tries r st le v m ht hs]
        have hrec := ih (tries + 1)
          { st with status := .completed, endTime := true, result := some v } (some m)
          (by simp)
        simp only at hrec
        have hhist : statusHistory i
            ((if r = 0 then ([] : List RunAction)
              else [RunAction.sleep (2 ^ (tries + 1))]) ++
              (attemptLoop env i
                { st with status := .completed, endTime := true, result := some v }
                (tries + 1) r (some m)).trace) =
            statusHistory i (attemptLoop env i
                { st with status := .completed, endTime := true, result := some v }
                (tries + 1) r (some m)).trace := by
          by_cases hr : r = 0 <;>
            simp [hr, statusHistory_append, statusHistory_cons_sleep, statusHistory_nil]
        constructor
        · simp only [statusHistory_cons_invoke, statusHistory_cons_set_same, hhist,
            chainOK]
          rw [hrec.1]
          rcases hst with h | h <;> simp [h, stepRel, claimedStepRel]
        · simp only [statusHistory_cons_invoke, statusHistory_cons_set_same, hhist,
            lastStatus]
          exact hrec.2
    | failure msg =>
      rw [attemptLoop_succ_failure env i tries r st le msg ht]
      have hrec := ih (tries + 1) st (some msg) hst
      constructor
      · have hh : statusHistory i (RunAction.invokeTool i tries ::
            ((if r = 0 then ([] : List RunAction)
              else [RunAction.sleep (2 ^ (tries + 1))]) ++
              (attemptLoop env i st (tries + 1) r (some msg)).trace)) =
            statusHistory i (attemptLoop env i st (tries + 1) r (some msg)).trace := by
          by_cases hr : r = 0 <;>
            simp [hr, statusHistory_cons_invoke, statusHistory_append,
              statusHistory_cons_sleep, statusHistory_nil]
        simpa [hh] using hrec.1
      · have hh : statusHistory i (RunAction.invokeTool i tries ::
            ((if r = 0 then ([] : List RunAction)
              else [RunAction.sleep (2 ^ (tries + 1))]) ++
              (attemptLoop env i st (tries + 1) r (some msg)).trace)) =
            statusHistory i (attemptLoop env i st (tries + 1) r (some msg)).trace := by
          by_cases hr : r = 0 <;>
            simp [hr, statusHistory_cons_invoke, statusHistory_append,
              statusHistory_cons_sleep, statusHistory_nil]
        simpa [hh] using hrec.2
    | timeout =>
      rw [attemptLoop_succ_timeout env i tries r st le ht]
      have hrec := ih (tries + 1) st (some (timeoutMsg st.timeout)) hst
      constructor
      · have hh : statusHistory i (RunAction.invokeTool i tries ::
            ((if r = 0 then ([] : List RunAction)
              else [RunAction.sleep (2 ^ (tries + 1))]) ++
              (attemptLoop env i st (tries + 1) r
                (some (timeoutMsg st.timeout))).trace)) =
            statusHistory i (attemptLoop env i st (tries + 1) r
              (some (timeoutMsg st.timeout))).trace := by
          by_cases hr : r = 0 <;>
            simp [hr, statusHistory_cons_invoke, statusHistory_append,
              statusHistory_cons_sleep, statusHistory_nil]
        simpa [hh] using hrec.1
      · have hh : statusHistory i (RunAction.invokeTool i tries ::
            ((if r = 0 then ([] : List RunAction)
              else [RunAction.sleep (2 ^ (tries + 1))]) ++
              (attemptLoop env i st (tries + 1) r
                (some (timeoutMsg st.timeout))).trace)) =
            statusHistory i (attemptLoop env i st (tries + 1) r
              (some (timeoutMsg st.timeout))).trace := by
          by_cases hr : r = 0 <;>
            simp [hr, statusHistory_cons_invoke, statusHistory_append,
              statusHistory_cons_sleep, statusHistory_nil]
        simpa [hh] using hrec.2

theorem runStep_hist (env : Env) (i : Nat) (st : WorkflowStep) :
    chainOK stepRel (.pending :: statusHistory i (runStep env i st).trace) = true ∧
    stepRel (lastStatus .pending (statusHistory i (runStep env i st).trace))
      .failed = true := by
  cases hs : env.sink (.stepStarted st.name) with
  | some m =>
    rw [runStep_sinkFail env i st m hs]
    simp [statusHistory, chainOK, stepRel, claimedStepRel, lastStatus]
  | none =>
    rw [runStep_eq env i st hs]
    have h := attemptLoop_hist env i st.retryCount 0
      { st with startTime := true, status := .running } none (by simp)
    simp only at h
    constructor
    · simp only [statusHistory_cons_set_same, statusHistory_cons_emit, chainOK]
      rw [h.1]
      simp [stepRel, claimedStepRel]
    · simp only [statusHistory_cons_set_same, statusHistory_cons_emit, lastStatus]
      exact h.2

theorem failStepState_fst (i : Nat) (st : WorkflowStep) (msg : String) :
    (failStepState i st msg).1 = { st with status := .failed, error := some msg } := rfl

theorem failStepState_snd (i : Nat) (st : WorkflowStep) (msg : String) :
    (failStepState i st msg).2 = RunAction.setStatus i .failed ::
      (if st.hasCleanup then [RunAction.runCleanup i] else []) := rfl

theorem execSteps_nil (env : Env) (done : List WorkflowStep)
    (res : List (String × Nat)) (cur : Nat) :
    execSteps env done [] res cur = ⟨done, res, cur, [], none⟩ := rfl

theorem execSteps_cons_skip (env : Env) (done : List WorkflowStep) (st : WorkflowStep)
    (rest : List WorkflowStep) (res : List (String × Nat)) (cur : Nat)
    (hc : conditionsMet st = false) :
    execSteps env done (st :: rest) res cur =
      ⟨(execSteps env (done ++ [{ st with status := .skipped }]) rest res done.length).steps,
       (execSteps env (done ++ [{ st with status := .skipped }]) rest res done.length).results,
       (execSteps env (done ++ [{ st with status := .skipped }]) rest res done.length).cur,
       RunAction.setStatus done.length .skipped ::
         (execSteps env (done ++ [{ st with status := .skipped }]) rest res done.length).trace,
       (execSteps env (done ++ [{ st with status := .skipped }]) rest res done.length).err⟩ := by
  simp [execSteps, hc]

theorem execSteps_cons_ok (env : Env) (done : List WorkflowStep) (st : WorkflowStep)
    (rest : List WorkflowStep) (res : List (String × Nat)) (cur : Nat) (v : Nat)
    (hc : conditionsMet st = true)
    (hret : (runStep env done.length st).ret = .ok v)
    (hctx : env.ctxUpdate done.length = none) :
    execSteps env done (st :: rest) res cur =
      ⟨(execSteps env (done ++ [(runStep env done.length st).step]) rest
          (setResult res st.name v) done.length).steps,
       (execSteps env (done ++ [(runStep env done.length st).step]) rest
          (setResult res st.name v) done.length).results,
       (execSteps env (done ++ [(runStep env done.length st).step]) rest
          (setResult res st.name v) done.length).cur,
       (runStep env done.length st).trace ++
         (execSteps env (done ++ [(runStep env done.length st).step]) rest
            (setResult res st.name v) done.length).trace,
       (execSteps env (done ++ [(runStep env done.length st).step]) rest
          (setResult res st.name v) done.length).err⟩ := by
  simp [execSteps, hc, hret, hctx]

theorem execSteps_cons_ok_ctxFail (env : Env) (done : List WorkflowStep)
    (st : WorkflowStep) (rest : List WorkflowStep) (res : List (String × Nat))
    (cur : Nat) (v : Nat) (m : String)
    (hc : conditionsMet st = true)
    (hret : (runStep env done.length st).ret = .ok v)
    (hctx : env.ctxUpdate done.length = some m) :
    execSteps env done (st :: rest) res cur =
      ⟨done ++ (failStepState done.length (runStep env done.length st).step m).1 :: rest,
       setResult res st.name v,
       done.length,
       (runStep env done.length st).trace ++
         (failStepState done.length (runStep env done.length st).step m).2,
       some (wfAbortMsg st.name m)⟩ := by
  simp [execSteps, hc, hret, hctx]

theorem execSteps_cons_error (env : Env) (done : List WorkflowStep)
    (st : WorkflowStep) (rest : List WorkflowStep) (res : List (String × Nat))
    (cur : Nat) (m : String)
    (hc : conditionsMet st = true)
    (hret : (runStep env done.length st).ret = .error m) :
    execSteps env done (st :: rest) res cur =
      ⟨done ++ (failStepState done.length (runStep env done.length st).step m).1 :: rest,
       res,
       done.length,
       (runStep env done.length st).trace ++
         (failStepState done.length (runStep env done.length st).step m).2,
       some (wfAbortMsg st.name m)⟩ := by
  simp [execSteps, hc, hret]

theorem entryCount_append (rs1 rs2 : List (String × Nat)) (k : String) :
    entryCount (rs1 ++ rs2) k = entryCount rs1 k + entryCount rs2 k := by
  simp [entryCount, List.filter_append]

theorem entryCount_single_self (k : String) (v : Nat) : entryCount [(k, v)] k = 1 := by
  simp [entryCount]

theorem entryCount_single_ne (k k' : String) (v : Nat) (h : k' ≠ k) :
    entryCount [(k, v)] k' = 0 := by
  simp [entryCount, List.filter_cons]
  intro hcon
  exact absurd hcon.symm h

theorem setResult_fresh (rs : List (String × Nat)) (k : String) (v : Nat)
    (h : entryCount rs k = 0) : setResult rs k v = rs ++ [(k, v)] := by
  have hfil : rs.filter (fun p => p.1 == k) = [] := by
    have := h
    simp only [entryCount] at this
    exact List.length_eq_zero.mp this
  have hany : rs.any (fun p => p.1 == k) = false := by
    rw [List.any_eq_false]
    intro p hp
    have := List.filter_eq_nil.mp hfil p hp
    simpa using this
  simp [setResult, hany]

theorem entryCount_setResult_self (rs : List (String × Nat)) (k : String) (v : Nat)
    (h : entryCount rs k = 0) : entryCount (setResult rs k v) k = 1 := by
  rw [setResult_fresh rs k v h, entryCount_append, h, entryCount_single_self]

theorem entryCount_setResult_ne (rs : List (String × Nat)) (k k' : String) (v : Nat)
    (h0 : entryCount rs k = 0) (h : k' ≠ k) :
    entryCount (setResult rs k v) k' = entryCount rs k' := by
  rw [setResult_fresh rs k v h0, entryCount_append, entryCount_single_ne k k' v h]
  omega

/-- The relationship between one step (at absolute index `j`) and the
results dict: a Completed step has exactly one entry; a Pending, Skipped
or Running step has none; a Failed step has none unless its tool call had
succeeded (its `result` is set) and its context update failed. -/
def resOK (env : Env) (rs : List (String × Nat)) (j : Nat) (st : WorkflowStep) : Prop :=
  (st.status = .completed → entryCount rs st.name = 1) ∧
  (st.status = .pending ∨ st.status = .skipped ∨ st.status = .running →
    entryCount rs st.name = 0) ∧
  (st.status = .failed → entryCount rs st.name = 0 ∨
    (entryCount rs st.name = 1 ∧ st.result.isSome = true ∧ env.ctxUpdate j ≠ none))

theorem resOK_congr (env : Env) (rs rs' : List (String × Nat)) (j : Nat)
    (st : WorkflowStep) (h : entryCount rs' st.name = entryCount rs st.name)
    (hok : resOK env rs j st) : resOK env rs' j st := by
  unfold resOK at hok ⊢
  rw [h]
  exact hok

theorem doneOK_push (env : Env) (res : List (String × Nat)) (done : List WorkflowStep)
    (x : WorkflowStep)
    (hdone : ∀ j st2, done[j]? = some st2 → resOK env res j st2)
    (hx : resOK env res done.length x) :
    ∀ j st2, (done ++ [x])[j]? = some st2 → resOK env res j st2 := by
  intro j st2 hj
  by_cases hlt : j < done.length
  · rw [List.getElem?_append_left hlt] at hj
    exact hdone j st2 hj
  · rw [List.getElem?_append_right (Nat.le_of_not_lt hlt)] at hj
    cases hd : j - done.length with
    | zero =>
      rw [hd] at hj
      simp at hj
      have hje : j = done.length := by omega
      subst hje
      rw [← hj]
      exact hx
    | succ d =>
      rw [hd] at hj
      simp at hj

theorem execSteps_resOK (env : Env) :
    ∀ (rest done : List WorkflowStep) (res : List (String × Nat)) (cur : Nat),
      (∀ j st2, done[j]? = some st2 → resOK env res j st2) →
      (∀ st2 ∈ rest, st2.status = .pending) →
      (∀ st2 ∈ rest, entryCount res st2.name = 0) →
      (∀ st2 ∈ rest, ∀ st3 ∈ done, st2.name ≠ st3.name) →
      rest.Pairwise (fun a b => a.name ≠ b.name) →
      ∀ j st2, (execSteps env done rest res cur).steps[j]? = some st2 →
        resOK env (execSteps env done rest res cur).results j st2 := by
  intro rest
  induction rest with
  | nil =>
    intro done res cur hdone hpend hcnt hdisj hpair j st2 hj
    rw [execSteps_nil] at hj ⊢
    exact hdone j st2 hj
  | cons st rest ih =>
    intro done res cur hdone hpend hcnt hdisj hpair j st2 hj
    have hcnt0 : entryCount res st.name = 0 := hcnt st (by simp)
    have hname := (runStep_policy env done.length st).1
    cases hc : conditionsMet st with
    | false =>
      rw [execSteps_cons_skip env done st rest res cur hc] at hj ⊢
      refine ih (done ++ [{ st with status := .skipped }]) res done.length
        ?_ ?_ ?_ ?_ ?_ j st2 hj
      · refine doneOK_push env res done _ hdone ?_
        refine ⟨by simp, fun _ => by simpa using hcnt0, by simp⟩
      · exact fun st2 h2 => hpend st2 (by simp [h2])
      · exact fun st2 h2 => hcnt st2 (by simp [h2])
      · intro st2 h2 st3 h3
        rcases List.mem_append.mp h3 with h3 | h3
        · exact hdisj st2 (by simp [h2]) st3 h3
        · simp at h3
          subst h3
          simpa using (List.pairwise_cons.mp hpair).1 st2 h2 |>.symm
      · exact (List.pairwise_cons.mp hpair).2
    | true =>
      cases hret : (runStep env done.length st).ret with
      | ok v =>
        have hok := runStep_ok env done.length st v hret
        cases hctx : env.ctxUpdate done.length with
        | none =>
          rw [execSteps_cons_ok env done st rest res cur v hc hret hctx] at hj ⊢
          refine ih (done ++ [(runStep env done.length st).step])
            (setResult res st.name v) done.length ?_ ?_ ?_ ?_ ?_ j st2 hj
          · refine doneOK_push env _ done _ ?_ ?_
            · intro j2 st3 h3
              refine resOK_congr env res _ j2 st3 ?_ (hdone j2 st3 h3)
              exact entryCount_setResult_ne res st.name st3.name v hcnt0
                (Ne.symm (hdisj st (by simp) st3 (List.getElem?_mem h3)))
            · refine ⟨fun _ => ?_, fun hcon => ?_, fun hcon => ?_⟩
              · rw [hname]
                exact entryCount_setResult_self res st.name v hcnt0
              · rw [hok.1] at hcon
                simp at hcon
              · rw [hok.1] at hcon
                simp at hcon
          · exact fun st2 h2 => hpend st2 (by simp [h2])
          · intro st2 h2
            have hne : st2.name ≠ st.name :=
              Ne.symm ((List.pairwise_cons.mp hpair).1 st2 h2)
            rw [entryCount_setResult_ne res st.name st2.name v hcnt0 hne]
            exact hcnt st2 (by simp [h2])
          · intro st2 h2 st3 h3
            rcases List.mem_append.mp h3 with h3 | h3
            · exact hdisj st2 (by simp [h2]) st3 h3
            · simp at h3
              subst h3
              rw [hname]
              exact Ne.symm ((List.pairwise_cons.mp hpair).1 st2 h2)
          · exact (List.pairwise_cons.mp hpair).2
        | some m =>
          rw [execSteps_cons_ok_ctxFail env done st rest res cur v m hc hret hctx] at hj ⊢
          rw [failStepState_fst] at hj
          by_cases hlt : j < done.length
          · rw [List.getElem?_append_left hlt] at hj
            refine resOK_congr env res _ j st2 ?_ (hdone j st2 hj)
            exact entryCount_setResult_ne res st.name st2.name v hcnt0
              (Ne.symm (hdisj st (by simp) st2 (List.getElem?_mem hj)))
          · rw [List.getElem?_append_right (Nat.le_of_not_lt hlt)] at hj
            cases hd : j - done.length with
            | zero =>
              rw [hd] at hj
              simp at hj
              refine ⟨fun hcon => ?_, fun hcon => ?_, fun _ => Or.inr ⟨?_, ?_, ?_⟩⟩
              · rw [← hj] at hcon
                simp at hcon
              · rw [← hj] at hcon
                rcases hcon with h | h | h <;> simp at h
              · rw [← hj]
                simp only [hname]
                exact entryCount_setResult_self res st.name v hcnt0
              · rw [← hj]
                simp [hok.2]
              · have hje : j = done.length := by omega
                rw [hje, hctx]
                simp
            | succ d =>
              rw [hd] at hj
              simp only [List.getElem?_cons_succ] at hj
              have hmem : st2 ∈ rest := List.getElem?_mem hj
              refine ⟨fun hcon => ?_, fun _ => ?_, fun hcon => ?_⟩
              · rw [hpend st2 (by simp [hmem])] at hcon
                simp at hcon
              · have hne : st2.name ≠ st.name :=
                  Ne.symm ((List.pairwise_cons.mp hpair).1 st2 hmem)
                rw [entryCount_setResult_ne res st.name st2.name v hcnt0 hne]
                exact hcnt st2 (by simp [hmem])
              · rw [hpend st2 (by simp [hmem])] at hcon
                simp at hcon
      | error m =>
        rw [execSteps_cons_error env done st rest res cur m hc hret] at hj ⊢
        rw [failStepState_fst] at hj
        by_cases hlt : j < done.length
        · rw [List.getElem?_append_left hlt] at hj
          exact hdone j st2 hj
        · rw [List.getElem?_append_right (Nat.le_of_not_lt hlt)] at hj
          cases hd : j - done.length with
          | zero =>
            rw [hd] at hj
            simp at hj
            refine ⟨fun hcon => ?_, fun hcon => ?_, fun _ => Or.inl ?_⟩
            · rw [← hj] at hcon
              simp at hcon
            · rw [← hj] at hcon
              rcases hcon with h | h | h <;> simp at h
            · rw [← hj]
              simpa [hname] using hcnt0
          | succ d =>
            rw [hd] at hj
            simp only [List.getElem?_cons_succ] at hj
            have hmem : st2 ∈ rest := List.getElem?_mem hj
            refine ⟨fun hcon => ?_, fun _ => ?_, fun hcon => ?_⟩
            · rw [hpend st2 (by simp [hmem])] at hcon
              simp at hcon
            · exact hcnt st2 (by simp [hmem])
            · rw [hpend st2 (by simp [hmem])] at hcon
              simp at hcon

instance (st : WorkflowStep) : Decidable st.Pristine :=
  inferInstanceAs (Decidable (st.status = .pending ∧ st.result = none ∧
    st.error = none ∧ st.startTime = false ∧ st.endTime = false))

instance (wf : SecurityWorkflow) : Decidable wf.InitState :=
  inferInstanceAs (Decidable (wf.status = .pending ∧ wf.currentStep = 0 ∧
    wf.results = [] ∧ wf.startTime = false ∧ wf.endTime = false ∧
    ∀ st ∈ wf.steps, st.Pristine))

theorem execute_steps_results (env : Env) (wf : SecurityWorkflow) :
    ((SecurityWorkflow.execute env wf).wf.steps = wf.steps ∧
     (SecurityWorkflow.execute env wf).wf.results = wf.results) ∨
    ((SecurityWorkflow.execute env wf).wf.steps =
       (execSteps env [] wf.steps wf.results wf.currentStep).steps ∧
     (SecurityWorkflow.execute env wf).wf.results =
       (execSteps env [] wf.steps wf.results wf.currentStep).results) := by
  unfold SecurityWorkflow.execute workflowFail
  cases env.ctxCreate <;>
    cases env.sink .workflowStarted <;>
      cases herr : (execSteps env [] wf.steps wf.results wf.currentStep).err <;>
        cases env.sink .workflowCompleted <;>
          cases env.sink .workflowFailed <;>
            simp [herr]

/-- Claim C2 (amended): after a run of `execute`, every Completed step has
exactly one results entry; every Pending, Skipped or Running step has
none; and a Failed step has none, except a step whose tool call succeeded
(its result field is set) but whose context-store update failed — that
step keeps its single entry (see `resOK`). -/
theorem results_match_statuses (env : Env) (wf : SecurityWorkflow)
    (hinit : wf.InitState)
    (hnames : (wf.steps.map (fun s => s.name)).Nodup) :
    ∀ j st, (SecurityWorkflow.execute env wf).wf.steps[j]? = some st →
      resOK env (SecurityWorkflow.execute env wf).wf.results j st := by
  intro j st hj
  obtain ⟨hstat, hcur, hres, hst0, hend, hsteps⟩ := hinit
  rcases execute_steps_results env wf with ⟨h1, h2⟩ | ⟨h1, h2⟩
  · rw [h1] at hj
    rw [h2, hres]
    have hmem := List.getElem?_mem hj
    have hp := (hsteps st hmem).1
    refine ⟨fun hcon => ?_, fun _ => ?_, fun hcon => ?_⟩
    · simp [hp] at hcon
    · simp [entryCount]
    · simp [hp] at hcon
  · rw [h1] at hj
    rw [h2]
    refine execSteps_resOK env wf.steps [] wf.results wf.currentStep
      ?_ ?_ ?_ ?_ ?_ j st hj
    · intro j2 st2 h2
      simp at h2
    · exact fun st2 h2 => (hsteps st2 h2).1
    · intro st2 h2
      rw [hres]
      simp [entryCount]
    · intro st2 _ st3 h3
      simp at h3
    · exact List.pairwise_map.mp hnames

def envC2w : Env := { tool := fun _ _ => .success 3 }

def wfC2w : SecurityWorkflow :=
  { name := "w2w", steps := [{ name := "a" }, { name := "b", conditions := [false] }] }

/-- Witness for the amended C2 at a concrete two-step run (one Completed,
one Skipped). -/
theorem results_match_statuses_witness :
    resOK envC2w (SecurityWorkflow.execute envC2w wfC2w).wf.results 0
      { name := "a", conditions := [], retryCount := 3, timeout := 300,
        hasCleanup := false, status := .completed, result := some 3,
        error := none, startTime := true, endTime := true } :=
  results_match_statuses envC2w wfC2w (by decide) (by decide) 0 _ (by decide)

/-- A Failed step carries an error that is present and non-empty. -/
def errOK (st : WorkflowStep) : Prop :=
  st.status = .failed → st.error ≠ none ∧ st.error ≠ some ""

theorem execSteps_errOK (env : Env)
    (hsink : ∀ e m2, env.sink e = some m2 → m2 ≠ "")
    (hctx : ∀ i m2, env.ctxUpdate i = some m2 → m2 ≠ "") :
    ∀ (rest done : List WorkflowStep) (res : List (String × Nat)) (cur : Nat),
      (∀ st2 ∈ done, errOK st2) →
      (∀ st2 ∈ rest, st2.status = .pending) →
      ∀ st2 ∈ (execSteps env done rest res cur).steps, errOK st2 := by
  intro rest
  induction rest with
  | nil =>
    intro done res cur hdone hpend st2 h2
    rw [execSteps_nil] at h2
    exact hdone st2 h2
  | cons st rest ih =>
    intro done res cur hdone hpend st2 h2
    cases hc : conditionsMet st with
    | false =>
      rw [execSteps_cons_skip env done st rest res cur hc] at h2
      refine ih _ res done.length ?_ ?_ st2 h2
      · intro st3 h3
        rcases List.mem_append.mp h3 with h3 | h3
        · exact hdone st3 h3
        · simp at h3
          subst h3
          intro hcon
          simp at hcon
      · exact fun st3 h3 => hpend st3 (by simp [h3])
    | true =>
      cases hret : (runStep env done.length st).ret with
      | ok v =>
        have hok := runStep_ok env done.length st v hret
        cases hctx2 : env.ctxUpdate done.length with
        | none =>
          rw [execSteps_cons_ok env done st rest res cur v hc hret hctx2] at h2
          refine ih _ _ done.length ?_ ?_ st2 h2
          · intro st3 h3
            rcases List.mem_append.mp h3 with h3 | h3
            · exact hdone st3 h3
            · simp at h3
              subst h3
              intro hcon
              rw [hok.1] at hcon
              simp at hcon
          · exact fun st3 h3 => hpend st3 (by simp [h3])
        | some m =>
          rw [execSteps_cons_ok_ctxFail env done st rest res cur v m hc hret hctx2] at h2
          rw [failStepState_fst] at h2
          rcases List.mem_append.mp h2 with h3 | h3
          · exact hdone st2 h3
          · rcases List.mem_cons.mp h3 with h3 | h3
            · subst h3
              intro _
              exact ⟨by simp, by simp [hctx done.length m hctx2]⟩
            · intro hcon
              rw [hpend st2 (by simp [h3])] at hcon
              simp at hcon
      | error m =>
        rw [execSteps_cons_error env done st rest res cur m hc hret] at h2
        rw [failStepState_fst] at h2
        rcases List.mem_append.mp h2 with h3 | h3
        · exact hdone st2 h3
        · rcases List.mem_cons.mp h3 with h3 | h3
          · subst h3
            intro _
            exact ⟨by simp,
              by simp [runStep_error_ne_empty env done.length st m hsink hret]⟩
          · intro hcon
            rw [hpend st2 (by simp [h3])] at hcon
            simp at hcon

/-- Claim C7 (amended): after any run of `execute` in which every failure
raised by the Context Store and the Audit Sink carries a non-empty
message, every step with status Failed has a present, non-empty error; in
particular tool failures with empty messages still yield a non-empty
error because the handler of `execute` stores the wrapped WorkflowError
message. -/
theorem failed_step_error_nonempty (env : Env) (wf : SecurityWorkflow)
    (hinit : wf.InitState)
    (hsink : ∀ e m2, env.sink e = some m2 → m2 ≠ "")
    (hctx : ∀ i m2, env.ctxUpdate i = some m2 → m2 ≠ "") :
    ∀ st ∈ (SecurityWorkflow.execute env wf).wf.steps, errOK st := by
  intro st hmem
  obtain ⟨_, _, _, _, _, hsteps⟩ := hinit
  rcases execute_steps_results env wf with ⟨h1, _⟩ | ⟨h1, _⟩
  · rw [h1] at hmem
    intro hcon
    rw [(hsteps st hmem).1] at hcon
    simp at hcon
  · rw [h1] at hmem
    exact execSteps_errOK env hsink hctx wf.steps [] wf.results wf.currentStep
      (by simp) (fun st2 h2 => (hsteps st2 h2).1) st hmem

def envC7w : Env := { tool := fun _ _ => .failure "" }

def wfC7w : SecurityWorkflow := { name := "w7w", steps := [{ name := "s", retryCount := 2 }] }

def stC7w : WorkflowStep :=
  { name := "s", conditions := [], retryCount := 2, timeout := 300,
    hasCleanup := false, status := .failed, result := none,
    error := some (stepFailMsg "s" 2 (some "")),
    startTime := true, endTime := true }

/-- Witness for the amended C7: a tool that always raises with an empty
message still leaves the Failed step with a non-empty error. -/
theorem failed_step_error_nonempty_witness :
    stC7w ∈ (SecurityWorkflow.execute envC7w wfC7w).wf.steps ∧
    stC7w.error ≠ none ∧ stC7w.error ≠ some "" := by
  have hm : stC7w ∈ (SecurityWorkflow.execute envC7w wfC7w).wf.steps := by decide
  have h := failed_step_error_nonempty envC7w wfC7w (by decide)
    (by intro e m2 hcon; simp [envC7w] at hcon)
    (by intro i m2 hcon; simp [envC7w] at hcon) stC7w hm (by decide)
  exact ⟨hm, h.1, h.2⟩

theorem statusHistory_cons_set_ne (j k : Nat) (s : WorkflowStepStatus)
    (tr : List RunAction) (h : k ≠ j) :
    statusHistory j (RunAction.setStatus k s :: tr) = statusHistory j tr := by
  simp [statusHistory, List.filterMap_cons, h]

theorem chainOK_append_last (rel : WorkflowStepStatus → WorkflowStepStatus → Bool) :
    ∀ (l : List WorkflowStepStatus) (a x : WorkflowStepStatus),
      chainOK rel (a :: (l ++ [x])) = (chainOK rel (a :: l) && rel (lastStatus a l) x) := by
  intro l
  induction l with
  | nil =>
    intro a x
    simp [chainOK, lastStatus]
  | cons b l ih =>
    intro a x
    simp only [List.cons_append, chainOK, lastStatus]
    have h := ih b x
    rw [show (l ++ [x]) = l.append [x] from rfl] at h
    rw [h, Bool.and_assoc]

theorem attemptLoop_shape (env : Env) (i : Nat) :
    ∀ (r tries : Nat) (st : WorkflowStep) (le : Option String) (a : RunAction),
      a ∈ (attemptLoop env i st tries r le).trace →
      (∃ t, a = .invokeTool i t) ∨ (∃ s, a = .sleep s) ∨
      a = .setStatus i .completed ∨ a = .setStatus i .failed ∨
      a = .emit (.stepCompleted st.name) ∨ a = .emit (.stepFailed st.name) := by
  intro r
  induction r with
  | zero =>
    intro tries st le a ha
    cases hs : env.sink (.stepFailed st.name) with
    | none =>
      rw [attemptLoop_exhaust_emit env i tries st le hs] at ha
      simp at ha
      rcases ha with h | h <;> simp [h]
    | some m =>
      rw [attemptLoop_exhaust_sinkFail env i tries st le m hs] at ha
      simp at ha
      simp [ha]
  | succ r ih =>
    intro tries st le a ha
    cases ht : env.tool i tries with
    | success v =>
      cases hs : env.sink (.stepCompleted st.name) with
      | none =>
        rw [attemptLoop_succ_success env i tries r st le v ht hs] at ha
        simp at ha
        rcases ha with h | h | h <;> simp [h]
      | some m =>
        rw [attemptLoop_succ_success_sinkFail env i tries r st le v m ht hs] at ha
        simp at ha
        rcases ha with h | h | ⟨h1, h2⟩ | h
        · simp [h]
        · simp [h]
        · simp [h2]
        · have := ih (tries + 1)
            { st with status := .completed, endTime := true, result := some v } (some m) a h
          simpa using this
    | failure msg =>
      rw [attemptLoop_succ_failure env i tries r st le msg ht] at ha
      simp at ha
      rcases ha with h | ⟨h1, h2⟩ | h
      · simp [h]
      · simp [h2]
      · exact ih (tries + 1) st (some msg) a h
    | timeout =>
      rw [attemptLoop_succ_timeout env i tries r st le ht] at ha
      simp at ha
      rcases ha with h | ⟨h1, h2⟩ | h
      · simp [h]
      · simp [h2]
      · exact ih (tries + 1) st (some (timeoutMsg st.timeout)) a h

theorem runStep_shape (env : Env) (i : Nat) (st : WorkflowStep) (a : RunAction)
    (ha : a ∈ (runStep env i st).trace) :
    (∃ t, a = .invokeTool i t) ∨ (∃ s, a = .sleep s) ∨
    a = .setStatus i .running ∨ a = .setStatus i .completed ∨
    a = .setStatus i .failed ∨
    a = .emit (.stepStarted st.name) ∨ a = .emit (.stepCompleted st.name) ∨
    a = .emit (.stepFailed st.name) := by
  cases hs : env.sink (.stepStarted st.name) with
  | some m =>
    rw [runStep_sinkFail env i st m hs] at ha
    simp at ha
    simp [ha]
  | none =>
    rw [runStep_eq env i st hs] at ha
    simp at ha
    rcases ha with h | h | h
    · simp [h]
    · simp [h]
    · have := attemptLoop_shape env i st.retryCount 0
        { st with startTime := true, status := .running } none a h
      simp only at this
      rcases this with ⟨t, h2⟩ | ⟨s, h2⟩ | h2 | h2 | h2 | h2 <;> simp [h2]

theorem chainOK_singleton (rel : WorkflowStepStatus → WorkflowStepStatus → Bool)
    (a : WorkflowStepStatus) : chainOK rel [a] = true := rfl

theorem statusHistory_failState_self (i : Nat) (stX : WorkflowStep) (m : String) :
    statusHistory i ((failStepState i stX m).2) = [.failed] := by
  rw [failStepState_snd]
  cases stX.hasCleanup <;>
    simp [statusHistory_cons_set_same, statusHistory_cons_cleanup, statusHistory_nil]

theorem statusHistory_failState_ne (i j : Nat) (stX : WorkflowStep) (m : String)
    (h : j ≠ i) :
    statusHistory j ((failStepState i stX m).2) = [] := by
  rw [failStepState_snd]
  have hne : i ≠ j := fun hh => h hh.symm
  cases stX.hasCleanup <;>
    simp [statusHistory_cons_set_ne j i _ _ hne, statusHistory_cons_cleanup,
      statusHistory_nil]

theorem execSteps_hist (env : Env) :
    ∀ (rest done : List WorkflowStep) (res : List (String × Nat)) (cur : Nat) (j : Nat),
      (j < done.length → statusHistory j (execSteps env done rest res cur).trace = []) ∧
      (done.length ≤ j →
        chainOK stepRel
          (.pending :: statusHistory j (execSteps env done rest res cur).trace) = true) := by
  intro rest
  induction rest with
  | nil =>
    intro done res cur j
    rw [execSteps_nil]
    exact ⟨fun _ => statusHistory_nil j, fun _ => by
      rw [statusHistory_nil]
      exact chainOK_singleton stepRel .pending⟩
  | cons st rest ih =>
    intro done res cur j
    have hrsnil : ∀ j2, j2 ≠ done.length →
        statusHistory j2 (runStep env done.length st).trace = [] := fun j2 hj2 =>
      statusHistory_nil_of_about done.length j2 st.name _
        (fun a ha => runStep_about env done.length st a ha) hj2
    cases hc : conditionsMet st with
    | false =>
      rw [execSteps_cons_skip env done st rest res cur hc]
      constructor
      · intro hj
        rw [statusHistory_cons_set_ne j done.length _ _ (by omega)]
        exact (ih (done ++ [{ st with status := .skipped }]) res done.length j).1
          (by simp; omega)
      · intro hj
        by_cases hji : j = done.length
        · subst hji
          rw [statusHistory_cons_set_same]
          have h0 := (ih (done ++ [{ st with status := .skipped }]) res
            done.length done.length).1 (by simp)
          rw [h0]
          simp [chainOK, stepRel, claimedStepRel]
        · rw [statusHistory_cons_set_ne j done.length _ _ (by omega)]
          exact (ih (done ++ [{ st with status := .skipped }]) res done.length j).2
            (by simp; omega)
    | true =>
      cases hret : (runStep env done.length st).ret with
      | ok v =>
        cases hctx : env.ctxUpdate done.length with
        | none =>
          rw [execSteps_cons_ok env done st rest res cur v hc hret hctx]
          constructor
          · intro hj
            rw [statusHistory_append, hrsnil j (by omega)]
            have h0 := (ih (done ++ [(runStep env done.length st).step])
              (setResult res st.name v) done.length j).1 (by simp; omega)
            rw [h0]
            rfl
          · intro hj
            by_cases hji : j = done.length
            · subst hji
              rw [statusHistory_append]
              have h0 := (ih (done ++ [(runStep env done.length st).step])
                (setResult res st.name v) done.length done.length).1 (by simp)
              rw [h0, List.append_nil]
              exact (runStep_hist env done.length st).1
            · rw [statusHistory_append, hrsnil j hji, List.nil_append]
              exact (ih (done ++ [(runStep env done.length st).step])
                (setResult res st.name v) done.length j).2 (by simp; omega)
        | some m =>
          rw [execSteps_cons_ok_ctxFail env done st rest res cur v m hc hret hctx]
          constructor
          · intro hj
            rw [statusHistory_append, hrsnil j (by omega),
              statusHistory_failState_ne done.length j _ m (by omega)]
            rfl
          · intro hj
            by_cases hji : j = done.length
            · subst hji
              rw [statusHistory_append, statusHistory_failState_self done.length _ m,
                chainOK_append_last stepRel, (runStep_hist env done.length st).1]
              have h2 := (runStep_hist env done.length st).2
              simp only [lastStatus] at h2 ⊢
              simp [h2]
            · rw [statusHistory_append, hrsnil j hji,
                statusHistory_failState_ne done.length j _ m hji]
              exact chainOK_singleton stepRel .pending
      | error m =>
        rw [execSteps_cons_error env done st rest res cur m hc hret]
        constructor
        · intro hj
          rw [statusHistory_append, hrsnil j (by omega),
            statusHistory_failState_ne done.length j _ m (by omega)]
          rfl
        · intro hj
          by_cases hji : j = done.length
          · subst hji
            rw [statusHistory_append, statusHistory_failState_self done.length _ m,
              chainOK_append_last stepRel, (runStep_hist env done.length st).1]
            have h2 := (runStep_hist env done.length st).2
            simp only [lastStatus] at h2 ⊢
            simp [h2]
          · rw [statusHistory_append, hrsnil j hji,
              statusHistory_failState_ne done.length j _ m hji]
            exact chainOK_singleton stepRel .pending

/-- The step name carried by a step-level audit event. -/
def stepEventName : AuditEvent → Option String
  | .stepStarted n => some n
  | .stepCompleted n => some n
  | .stepFailed n => some n
  | _ => none

theorem execSteps_attr (env : Env) :
    ∀ (rest done : List WorkflowStep) (res : List (String × Nat)) (cur : Nat),
      (∀ j t, RunAction.invokeTool j t ∈ (execSteps env done rest res cur).trace →
        done.length ≤ j ∧ ∃ st2, rest[j - done.length]? = some st2 ∧
          conditionsMet st2 = true) ∧
      (∀ j, RunAction.setStatus j .skipped ∈ (execSteps env done rest res cur).trace →
        done.length ≤ j ∧ ∃ st2, rest[j - done.length]? = some st2 ∧
          conditionsMet st2 = false) ∧
      (∀ j, RunAction.runCleanup j ∈ (execSteps env done rest res cur).trace →
        done.length ≤ j ∧ ∃ st2, rest[j - done.length]? = some st2 ∧
          conditionsMet st2 = true) ∧
      (∀ e n, RunAction.emit e ∈ (execSteps env done rest res cur).trace →
        stepEventName e = some n →
        ∃ st2 ∈ rest, st2.name = n ∧ conditionsMet st2 = true) := by
  intro rest
  induction rest with
  | nil =>
    intro done res cur
    rw [execSteps_nil]
    refine ⟨?_, ?_, ?_, ?_⟩
    · intro j t hmem
      simp at hmem
    · intro j hmem
      simp at hmem
    · intro j hmem
      simp at hmem
    · intro e n hmem hen
      simp at hmem
  | cons st rest ih =>
    intro done res cur
    have hconv : ∀ (j : Nat) (st2 : WorkflowStep) (b : Bool),
        ((done ++ [st]).length ≤ j ∧ ∃ st3, rest[j - (done ++ [st]).length]? = some st3 ∧
          conditionsMet st3 = b) →
        ∀ (x : WorkflowStep),
        done.length ≤ j ∧ ∃ st3, (x :: rest)[j - done.length]? = some st3 ∧
          conditionsMet st3 = b := by
      intro j st2 b hp x
      simp only [List.length_append, List.length_cons, List.length_nil] at hp
      obtain ⟨hle, st3, hget, hcond⟩ := hp
      refine ⟨by omega, st3, ?_, hcond⟩
      have h1 : j - done.length = (j - (done.length + 1)) + 1 := by omega
      rw [h1, List.getElem?_cons_succ]
      exact hget
    cases hc : conditionsMet st with
    | false =>
      rw [execSteps_cons_skip env done st rest res cur hc]
      have hlen : ∀ (x : WorkflowStep), (done ++ [x]).length = done.length + 1 := by
        simp
      refine ⟨?_, ?_, ?_, ?_⟩
      · intro j t hmem
        simp only [List.mem_cons] at hmem
        rcases hmem with h | h
        · simp at h
        · have hr := (ih (done ++ [{ st with status := .skipped }]) res done.length).1 j t h
          rw [hlen] at hr
          obtain ⟨hle, st3, hget, hcond⟩ := hr
          refine ⟨by omega, st3, ?_, hcond⟩
          have h1 : j - done.length = (j - (done.length + 1)) + 1 := by omega
          rw [h1, List.getElem?_cons_succ]
          exact hget
      · intro j hmem
        simp only [List.mem_cons] at hmem
        rcases hmem with h | h
        · have hj : j = done.length := by
            injection h with h1 h2
          subst hj
          exact ⟨Nat.le_refl _, st, by simp, hc⟩
        · have hr := (ih (done ++ [{ st with status := .skipped }]) res done.length).2.1 j h
          rw [hlen] at hr
          obtain ⟨hle, st3, hget, hcond⟩ := hr
          refine ⟨by omega, st3, ?_, hcond⟩
          have h1 : j - done.length = (j - (done.length + 1)) + 1 := by omega
          rw [h1, List.getElem?_cons_succ]
          exact hget
      · intro j hmem
        simp only [List.mem_cons] at hmem
        rcases hmem with h | h
        · simp at h
        · have hr := (ih (done ++ [{ st with status := .skipped }]) res done.length).2.2.1 j h
          rw [hlen] at hr
          obtain ⟨hle, st3, hget, hcond⟩ := hr
          refine ⟨by omega, st3, ?_, hcond⟩
          have h1 : j - done.length = (j - (done.length + 1)) + 1 := by omega
          rw [h1, List.getElem?_cons_succ]
          exact hget
      · intro e n hmem hname
        simp only [List.mem_cons] at hmem
        rcases hmem with h | h
        · simp at h
        · obtain ⟨st2, hst2, hn, hcond⟩ :=
            (ih (done ++ [{ st with status := .skipped }]) res done.length).2.2.2 e n h hname
          exact ⟨st2, by simp [hst2], hn, hcond⟩
    | true =>
      have hshape := runStep_shape env done.length st
      have hname := (runStep_policy env done.length st).1
      cases hret : (runStep env done.length st).ret with
      | ok v =>
        cases hctx : env.ctxUpdate done.length with
        | none =>
          rw [execSteps_cons_ok env done st rest res cur v hc hret hctx]
          have hlen : (done ++ [(runStep env done.length st).step]).length =
              done.length + 1 := by simp
          refine ⟨?_, ?_, ?_, ?_⟩
          · intro j t hmem
            rcases List.mem_append.mp hmem with h | h
            · rcases hshape _ h with ⟨t2, h2⟩ | ⟨s2, h2⟩ | h2 | h2 | h2 | h2 | h2 | h2 <;>
                simp at h2
              obtain ⟨hj, _⟩ := h2
              subst hj
              exact ⟨Nat.le_refl _, st, by simp, hc⟩
            · have hr := (ih (done ++ [(runStep env done.length st).step])
                (setResult res st.name v) done.length).1 j t h
              rw [hlen] at hr
              obtain ⟨hle, st3, hget, hcond⟩ := hr
              refine ⟨by omega, st3, ?_, hcond⟩
              have h1 : j - done.length = (j - (done.length + 1)) + 1 := by omega
              rw [h1, List.getElem?_cons_succ]
              exact hget
          · intro j hmem
            rcases List.mem_append.mp hmem with h | h
            · rcases hshape _ h with ⟨t2, h2⟩ | ⟨s2, h2⟩ | h2 | h2 | h2 | h2 | h2 | h2 <;>
                simp at h2
            · have hr := (ih (done ++ [(runStep env done.length st).step])
                (setResult res st.name v) done.length).2.1 j h
              rw [hlen] at hr
              obtain ⟨hle, st3, hget, hcond⟩ := hr
              refine ⟨by omega, st3, ?_, hcond⟩
              have h1 : j - done.length = (j - (done.length + 1)) + 1 := by omega
              rw [h1, List.getElem?_cons_succ]
              exact hget
          · intro j hmem
            rcases List.mem_append.mp hmem with h | h
            · rcases hshape _ h with ⟨t2, h2⟩ | ⟨s2, h2⟩ | h2 | h2 | h2 | h2 | h2 | h2 <;>
                simp at h2
            · have hr := (ih (done ++ [(runStep env done.length st).step])
                (setResult res st.name v) done.length).2.2.1 j h
              rw [hlen] at hr
              obtain ⟨hle, st3, hget, hcond⟩ := hr
              refine ⟨by omega, st3, ?_, hcond⟩
              have h1 : j - done.length = (j - (done.length + 1)) + 1 := by omega
              rw [h1, List.getElem?_cons_succ]
              exact hget
          · intro e n hmem hen
            rcases List.mem_append.mp hmem with h | h
            · rcases hshape _ h with ⟨t2, h2⟩ | ⟨s2, h2⟩ | h2 | h2 | h2 | h2 | h2 | h2 <;>
                simp at h2 <;> subst h2 <;> simp [stepEventName] at hen <;>
                  exact ⟨st, by simp, hen, hc⟩
            · obtain ⟨st2, hst2, hn, hcond⟩ :=
                (ih (done ++ [(runStep env done.length st).step])
                  (setResult res st.name v) done.length).2.2.2 e n h hen
              exact ⟨st2, by simp [hst2], hn, hcond⟩
        | some m =>
          rw [execSteps_cons_ok_ctxFail env done st rest res cur v m hc hret hctx]
          rw [failStepState_snd]
          refine ⟨?_, ?_, ?_, ?_⟩
          · intro j t hmem
            rcases List.mem_append.mp hmem with h | h
            · rcases hshape _ h with ⟨t2, h2⟩ | ⟨s2, h2⟩ | h2 | h2 | h2 | h2 | h2 | h2 <;>
                simp at h2
              obtain ⟨hj, _⟩ := h2
              subst hj
              exact ⟨Nat.le_refl _, st, by simp, hc⟩
            · simp only [List.mem_cons] at h
              rcases h with h | h
              · simp at h
              · cases hcl : (runStep env done.length st).step.hasCleanup <;>
                  rw [hcl] at h <;> simp at h
          · intro j hmem
            rcases List.mem_append.mp hmem with h | h
            · rcases hshape _ h with ⟨t2, h2⟩ | ⟨s2, h2⟩ | h2 | h2 | h2 | h2 | h2 | h2 <;>
                simp at h2
            · simp only [List.mem_cons] at h
              rcases h with h | h
              · simp at h
              · cases hcl : (runStep env done.length st).step.hasCleanup <;>
                  rw [hcl] at h <;> simp at h
          · intro j hmem
            rcases List.mem_append.mp hmem with h | h
            · rcases hshape _ h with ⟨t2, h2⟩ | ⟨s2, h2⟩ | h2 | h2 | h2 | h2 | h2 | h2 <;>
                simp at h2
            · simp only [List.mem_cons] at h
              rcases h with h | h
              · simp at h
              · cases hcl : (runStep env done.length st).step.hasCleanup <;>
                  rw [hcl] at h <;> simp at h
                have hj : j = done.length := h
                subst hj
                exact ⟨Nat.le_refl _, st, by simp, hc⟩
          · intro e n hmem hen
            rcases List.mem_append.mp hmem with h | h
            · rcases hshape _ h with ⟨t2, h2⟩ | ⟨s2, h2⟩ | h2 | h2 | h2 | h2 | h2 | h2 <;>
                simp at h2 <;> subst h2 <;> simp [stepEventName] at hen <;>
                  exact ⟨st, by simp, hen, hc⟩
            · simp only [List.mem_cons] at h
              rcases h with h | h
              · simp at h
              · cases hcl : (runStep env done.length st).step.hasCleanup <;>
                  rw [hcl] at h <;> simp at h
      | error m =>
        rw [execSteps_cons_error env done st rest res cur m hc hret]
        rw [failStepState_snd]
        refine ⟨?_, ?_, ?_, ?_⟩
        · intro j t hmem
          rcases List.mem_append.mp hmem with h | h
          · rcases hshape _ h with ⟨t2, h2⟩ | ⟨s2, h2⟩ | h2 | h2 | h2 | h2 | h2 | h2 <;>
              simp at h2
            obtain ⟨hj, _⟩ := h2
            subst hj
            exact ⟨Nat.le_refl _, st, by simp, hc⟩
          · simp only [List.mem_cons] at h
            rcases h with h | h
            · simp at h
            · cases hcl : (runStep env done.length st).step.hasCleanup <;>
                rw [hcl] at h <;> simp at h
        · intro j hmem
          rcases List.mem_append.mp hmem with h | h
          · rcases hshape _ h with ⟨t2, h2⟩ | ⟨s2, h2⟩ | h2 | h2 | h2 | h2 | h2 | h2 <;>
              simp at h2
          · simp only [List.mem_cons] at h
            rcases h with h | h
            · simp at h
            · cases hcl : (runStep env done.length st).step.hasCleanup <;>
                rw [hcl] at h <;> simp at h
        · intro j hmem
          rcases List.mem_append.mp hmem with h | h
          · rcases hshape _ h with ⟨t2, h2⟩ | ⟨s2, h2⟩ | h2 | h2 | h2 | h2 | h2 | h2 <;>
              simp at h2
          · simp only [List.mem_cons] at h
            rcases h with h | h
            · simp at h
            · cases hcl : (runStep env done.length st).step.hasCleanup <;>
                rw [hcl] at h <;> simp at h
              have hj : j = done.length := h
              subst hj
              exact ⟨Nat.le_refl _, st, by simp, hc⟩
        · intro e n hmem hen
          rcases List.mem_append.mp hmem with h | h
          · rcases hshape _ h with ⟨t2, h2⟩ | ⟨s2, h2⟩ | h2 | h2 | h2 | h2 | h2 | h2 <;>
              simp at h2 <;> subst h2 <;> simp [stepEventName] at hen <;>
                exact ⟨st, by simp, hen, hc⟩
          · simp only [List.mem_cons] at h
            rcases h with h | h
            · simp at h
            · cases hcl : (runStep env done.length st).step.hasCleanup <;>
                rw [hcl] at h <;> simp at h

theorem execSteps_steps_prefix (env : Env) :
    ∀ (rest done : List WorkflowStep) (res : List (String × Nat)) (cur : Nat),
      ∃ tail, (execSteps env done rest res cur).steps = done ++ tail := by
  intro rest
  induction rest with
  | nil =>
    intro done res cur
    exact ⟨[], by rw [execSteps_nil]; simp⟩
  | cons st rest ih =>
    intro done res cur
    cases hc : conditionsMet st with
    | false =>
      rw [execSteps_cons_skip env done st rest res cur hc]
      obtain ⟨tail, htail⟩ := ih (done ++ [{ st with status := .skipped }]) res done.length
      exact ⟨{ st with status := .skipped } :: tail, by simp [htail]⟩
    | true =>
      cases hret : (runStep env done.length st).ret with
      | ok v =>
        cases hctx : env.ctxUpdate done.length with
        | none =>
          rw [execSteps_cons_ok env done st rest res cur v hc hret hctx]
          obtain ⟨tail, htail⟩ := ih (done ++ [(runStep env done.length st).step])
            (setResult res st.name v) done.length
          exact ⟨(runStep env done.length st).step :: tail, by simp [htail]⟩
        | some m =>
          rw [execSteps_cons_ok_ctxFail env done st rest res cur v m hc hret hctx]
          exact ⟨_ :: rest, rfl⟩
      | error m =>
        rw [execSteps_cons_error env done st rest res cur m hc hret]
        exact ⟨_ :: rest, rfl⟩

theorem execSteps_cur_ge (env : Env) :
    ∀ (rest done : List WorkflowStep) (res : List (String × Nat)) (cur : Nat),
      rest ≠ [] → done.length ≤ (execSteps env done rest res cur).cur := by
  intro rest
  induction rest with
  | nil => intro done res cur h; exact absurd rfl h
  | cons st rest ih =>
    intro done res cur _
    cases hc : conditionsMet st with
    | false =>
      rw [execSteps_cons_skip env done st rest res cur hc]
      dsimp only
      cases hrest : rest with
      | nil =>
        subst hrest
        rw [execSteps_nil]
      | cons b l =>
        have := ih (done ++ [{ st with status := .skipped }]) res done.length
          (by simp [hrest])
        simp only [List.length_append, List.length_cons, List.length_nil] at this
        subst hrest
        omega
    | true =>
      cases hret : (runStep env done.length st).ret with
      | ok v =>
        cases hctx : env.ctxUpdate done.length with
        | none =>
          rw [execSteps_cons_ok env done st rest res cur v hc hret hctx]
          dsimp only
          cases hrest : rest with
          | nil =>
            subst hrest
            rw [execSteps_nil]
          | cons b l =>
            have := ih (done ++ [(runStep env done.length st).step])
              (setResult res st.name v) done.length (by simp [hrest])
            simp only [List.length_append, List.length_cons, List.length_nil] at this
            subst hrest
            omega
        | some m =>
          rw [execSteps_cons_ok_ctxFail env done st rest res cur v m hc hret hctx]
      | error m =>
        rw [execSteps_cons_error env done st rest res cur m hc hret]

theorem cleanupCount_append (j : Nat) (t1 t2 : List RunAction) :
    cleanupCount j (t1 ++ t2) = cleanupCount j t1 + cleanupCount j t2 := by
  simp [cleanupCount, List.filter_append]

theorem cleanupCount_runStep (env : Env) (i j : Nat) (st : WorkflowStep) :
    cleanupCount j (runStep env i st).trace = 0 := by
  simp only [cleanupCount, List.length_eq_zero]
  rw [List.filter_eq_nil_iff]
  intro a ha
  rcases runStep_shape env i st a ha with ⟨t, h⟩ | ⟨s, h⟩ | h | h | h | h | h | h <;>
    subst h <;> simp

theorem cleanupCount_failState (i j : Nat) (stX : WorkflowStep) (m : String) :
    cleanupCount j ((failStepState i stX m).2) =
      if stX.hasCleanup ∧ j = i then 1 else 0 := by
  rw [failStepState_snd]
  cases hcl : stX.hasCleanup <;> by_cases hj : j = i <;>
    simp [cleanupCount, List.filter_cons, hj] <;> omega

theorem cleanupCount_setStatus (j k : Nat) (s : WorkflowStepStatus)
    (tr : List RunAction) :
    cleanupCount j (RunAction.setStatus k s :: tr) = cleanupCount j tr := by
  simp [cleanupCount, List.filter_cons]

theorem execSteps_skipAt (env : Env) :
    ∀ (rest done : List WorkflowStep) (res : List (String × Nat)) (cur : Nat)
      (j : Nat) (stJ : WorkflowStep),
      done.length ≤ j →
      rest[j - done.length]? = some stJ →
      conditionsMet stJ = false →
      (∀ k st2, done.length ≤ k → k < j → rest[k - done.length]? = some st2 →
        ¬ stepAborts env k st2) →
      (execSteps env done rest res cur).steps[j]? =
        some { stJ with status := WorkflowStepStatus.skipped } ∧
      (j + 1 < done.length + rest.length →
        j + 1 ≤ (execSteps env done rest res cur).cur) := by
  intro rest
  induction rest with
  | nil =>
    intro done res cur j stJ hle hj _ _
    simp at hj
  | cons st0 rest ih =>
    intro done res cur j stJ hle hj hcond hpre
    by_cases hjd : j = done.length
    · subst hjd
      rw [Nat.sub_self] at hj
      simp at hj
      subst hj
      rw [execSteps_cons_skip env done st0 rest res cur hcond]
      dsimp only
      obtain ⟨tail, htail⟩ := execSteps_steps_prefix env rest
        (done ++ [{ st0 with status := .skipped }]) res done.length
      constructor
      · rw [htail, List.getElem?_append_left (by simp),
          List.getElem?_append_right (Nat.le_refl _)]
        simp
      · intro hlt
        have hne : rest ≠ [] := by
          intro h
          subst h
          simp at hlt
        have h2 := execSteps_cur_ge env rest
          (done ++ [{ st0 with status := .skipped }]) res done.length hne
        simp only [List.length_append, List.length_cons, List.length_nil] at h2
        omega
    · have hlt : done.length < j := Nat.lt_of_le_of_ne hle (fun h => hjd h.symm)
      have hsub : j - done.length = (j - (done.length + 1)) + 1 := by omega
      rw [hsub, List.getElem?_cons_succ] at hj
      have hnab : ¬ stepAborts env done.length st0 :=
        hpre done.length st0 (Nat.le_refl _) hlt (by simp)
      cases hc0 : conditionsMet st0 with
      | false =>
        rw [execSteps_cons_skip env done st0 rest res cur hc0]
        dsimp only
        have hpre2 : ∀ k st2, (done ++ [{ st0 with status := WorkflowStepStatus.skipped }]).length ≤ k →
            k < j →
            rest[k - (done ++ [{ st0 with status := WorkflowStepStatus.skipped }]).length]? = some st2 →
            ¬ stepAborts env k st2 := by
          intro k st2 hk1 hk2 hk3
          simp only [List.length_append, List.length_cons, List.length_nil] at hk1 hk3
          apply hpre k st2 (by omega) hk2
          have heq : k - done.length = (k - (done.length + 1)) + 1 := by omega
          rw [heq, List.getElem?_cons_succ]
          exact hk3
        have hrec := ih (done ++ [{ st0 with status := .skipped }]) res done.length j stJ
          (by simp; omega) (by simpa using hj) hcond hpre2
        refine ⟨hrec.1, fun hl => hrec.2 ?_⟩
        simp only [List.length_append, List.length_cons, List.length_nil] at hl ⊢
        omega
      | true =>
        cases hret : (runStep env done.length st0).ret with
        | error m =>
          exact absurd ⟨hc0, Or.inl (by rw [hret]; rfl)⟩ hnab
        | ok v =>
          cases hctx : env.ctxUpdate done.length with
          | some m =>
            exact absurd ⟨hc0, Or.inr (by rw [hctx]; rfl)⟩ hnab
          | none =>
            rw [execSteps_cons_ok env done st0 rest res cur v hc0 hret hctx]
            dsimp only
            have hpre2 : ∀ k st2, (done ++ [(runStep env done.length st0).step]).length ≤ k →
                k < j →
                rest[k - (done ++ [(runStep env done.length st0).step]).length]? = some st2 →
                ¬ stepAborts env k st2 := by
              intro k st2 hk1 hk2 hk3
              simp only [List.length_append, List.length_cons, List.length_nil] at hk1 hk3
              apply hpre k st2 (by omega) hk2
              have heq : k - done.length = (k - (done.length + 1)) + 1 := by omega
              rw [heq, List.getElem?_cons_succ]
              exact hk3
            have hrec := ih (done ++ [(runStep env done.length st0).step])
              (setResult res st0.name v) done.length j stJ
              (by simp; omega) (by simpa using hj) hcond hpre2
            refine ⟨hrec.1, fun hl => hrec.2 ?_⟩
            simp only [List.length_append, List.length_cons, List.length_nil] at hl ⊢
            omega

theorem entryCount_map_set (rs : List (String × Nat)) (k k' : String) (v : Nat)
    (h : k' ≠ k) :
    entryCount (rs.map (fun p => if p.1 == k then (k, v) else p)) k' =
      entryCount rs k' := by
  induction rs with
  | nil => rfl
  | cons p rs ih =>
    cases hp : (p.1 == k) with
    | true =>
      have hp' : p.1 = k := by simpa using hp
      simp only [List.map_cons, hp, if_true]
      simp [entryCount, List.filter_cons, hp', Ne.symm h] at ih ⊢
      exact ih
    | false =>
      simp only [List.map_cons, hp, if_false]
      simp [entryCount, List.filter_cons] at ih ⊢
      by_cases hpk : p.1 = k' <;> simp [hpk, ih]

theorem entryCount_setResult_other (rs : List (String × Nat)) (k k' : String) (v : Nat)
    (h : k' ≠ k) : entryCount (setResult rs k v) k' = entryCount rs k' := by
  unfold setResult
  by_cases hany : rs.any (fun p => p.1 == k) = true
  · rw [if_pos hany]
    exact entryCount_map_set rs k k' v h
  · rw [if_neg hany, entryCount_append, entryCount_single_ne k k' v h]
    omega

theorem execSteps_abortAt (env : Env) :
    ∀ (rest done : List WorkflowStep) (res : List (String × Nat)) (cur : Nat)
      (j : Nat) (stJ : WorkflowStep) (v : Nat) (m : String),
      done.length ≤ j →
      rest[j - done.length]? = some stJ →
      conditionsMet stJ = true →
      (runStep env j stJ).ret = Except.ok v →
      env.ctxUpdate j = some m →
      entryCount res stJ.name = 0 →
      (∀ k st2, done.length ≤ k → k < j → rest[k - done.length]? = some st2 →
        ¬ stepAborts env k st2 ∧ st2.name ≠ stJ.name) →
      (execSteps env done rest res cur).steps[j]? =
        some { (runStep env j stJ).step with status := WorkflowStepStatus.failed, error := some m } ∧
      entryCount (execSteps env done rest res cur).results stJ.name = 1 ∧
      (execSteps env done rest res cur).err = some (wfAbortMsg stJ.name m) ∧
      (execSteps env done rest res cur).cur = j ∧
      cleanupCount j (execSteps env done rest res cur).trace =
        (if stJ.hasCleanup then 1 else 0) := by
  intro rest
  induction rest with
  | nil =>
    intro done res cur j stJ v m hle hj _ _ _ _ _
    simp at hj
  | cons st0 rest ih =>
    intro done res cur j stJ v m hle hj hcond hret hctx hec hpre
    by_cases hjd : j = done.length
    · subst hjd
      rw [Nat.sub_self] at hj
      simp at hj
      subst hj
      rw [execSteps_cons_ok_ctxFail env done st0 rest res cur v m hcond hret hctx]
      dsimp only
      refine ⟨?_, ?_, rfl, rfl, ?_⟩
      · rw [List.getElem?_append_right (Nat.le_refl _), Nat.sub_self]
        rw [failStepState_fst]
        simp
      · exact entryCount_setResult_self res st0.name v hec
      · rw [cleanupCount_append, cleanupCount_runStep,
          cleanupCount_failState done.length done.length _ m]
        rw [(runStep_policy env done.length st0).2.1]
        simp
    · have hlt : done.length < j := Nat.lt_of_le_of_ne hle (fun h => hjd h.symm)
      have hsub : j - done.length = (j - (done.length + 1)) + 1 := by omega
      rw [hsub, List.getElem?_cons_succ] at hj
      have hhead := hpre done.length st0 (Nat.le_refl _) hlt (by simp)
      cases hc0 : conditionsMet st0 with
      | false =>
        rw [execSteps_cons_skip env done st0 rest res cur hc0]
        dsimp only
        have hpre2 : ∀ k st2, (done ++ [{ st0 with status := WorkflowStepStatus.skipped }]).length ≤ k →
            k < j →
            rest[k - (done ++ [{ st0 with status := WorkflowStepStatus.skipped }]).length]? = some st2 →
            ¬ stepAborts env k st2 ∧ st2.name ≠ stJ.name := by
          intro k st2 hk1 hk2 hk3
          simp only [List.length_append, List.length_cons, List.length_nil] at hk1 hk3
          apply hpre k st2 (by omega) hk2
          have heq : k - done.length = (k - (done.length + 1)) + 1 := by omega
          rw [heq, List.getElem?_cons_succ]
          exact hk3
        have hrec := ih (done ++ [{ st0 with status := .skipped }]) res done.length j stJ v m
          (by simp; omega) (by simpa using hj) hcond hret hctx hec hpre2
        refine ⟨hrec.1, hrec.2.1, hrec.2.2.1, hrec.2.2.2.1, ?_⟩
        rw [cleanupCount_setStatus]
        exact hrec.2.2.2.2
      | true =>
        cases hret0 : (runStep env done.length st0).ret with
        | error m0 =>
          exact absurd ⟨hc0, Or.inl (by rw [hret0]; rfl)⟩ hhead.1
        | ok v0 =>
          cases hctx0 : env.ctxUpdate done.length with
          | some m0 =>
            exact absurd ⟨hc0, Or.inr (by rw [hctx0]; rfl)⟩ hhead.1
          | none =>
            rw [execSteps_cons_ok env done st0 rest res cur v0 hc0 hret0 hctx0]
            dsimp only
            have hec2 : entryCount (setResult res st0.name v0) stJ.name = 0 := by
              rw [entryCount_setResult_other res st0.name stJ.name v0 (Ne.symm hhead.2)]
              exact hec
            have hpre2 : ∀ k st2, (done ++ [(runStep env done.length st0).step]).length ≤ k →
                k < j →
                rest[k - (done ++ [(runStep env done.length st0).step]).length]? = some st2 →
                ¬ stepAborts env k st2 ∧ st2.name ≠ stJ.name := by
              intro k st2 hk1 hk2 hk3
              simp only [List.length_append, List.length_cons, List.length_nil] at hk1 hk3
              apply hpre k st2 (by omega) hk2
              have heq : k - done.length = (k - (done.length + 1)) + 1 := by omega
              rw [heq, List.getElem?_cons_succ]
              exact hk3
            have hrec := ih (done ++ [(runStep env done.length st0).step])
              (setResult res st0.name v0) done.length j stJ v m
              (by simp; omega) (by simpa using hj) hcond hret hctx hec2 hpre2
            refine ⟨hrec.1, hrec.2.1, hrec.2.2.1, hrec.2.2.2.1, ?_⟩
            rw [cleanupCount_append, cleanupCount_runStep]
            simpa using hrec.2.2.2.2

theorem cleanupCount_cons_emit (j : Nat) (e : AuditEvent) (tr : List RunAction) :
    cleanupCount j (RunAction.emit e :: tr) = cleanupCount j tr := by
  simp [cleanupCount, List.filter_cons]

theorem cleanupCount_single_emit (j : Nat) (e : AuditEvent) :
    cleanupCount j [RunAction.emit e] = 0 := rfl

theorem cleanupCount_nil (j : Nat) : cleanupCount j [] = 0 := rfl

theorem execute_trace_cases (env : Env) (wf : SecurityWorkflow) (a : RunAction)
    (ha : a ∈ (SecurityWorkflow.execute env wf).trace) :
    a ∈ (execSteps env [] wf.steps wf.results wf.currentStep).trace ∨
    a = RunAction.emit .workflowStarted ∨ a = RunAction.emit .workflowFailed ∨
    a = RunAction.emit .workflowCompleted := by
  revert ha
  unfold SecurityWorkflow.execute workflowFail
  cases env.ctxCreate <;>
    cases env.sink .workflowStarted <;>
      cases herr : (execSteps env [] wf.steps wf.results wf.currentStep).err <;>
        cases env.sink .workflowCompleted <;>
          cases env.sink .workflowFailed <;>
            · intro ha
              simp [herr] at ha ⊢
              all_goals tauto

theorem execute_statusHistory (env : Env) (wf : SecurityWorkflow) (j : Nat) :
    statusHistory j (SecurityWorkflow.execute env wf).trace =
      statusHistory j (execSteps env [] wf.steps wf.results wf.currentStep).trace ∨
    statusHistory j (SecurityWorkflow.execute env wf).trace = [] := by
  unfold SecurityWorkflow.execute workflowFail
  cases env.ctxCreate <;>
    cases env.sink .workflowStarted <;>
      cases herr : (execSteps env [] wf.steps wf.results wf.currentStep).err <;>
        cases env.sink .workflowCompleted <;>
          cases env.sink .workflowFailed <;>
            simp [herr, statusHistory_cons_emit, statusHistory_append,
              statusHistory_nil]

theorem execute_run (env : Env) (wf : SecurityWorkflow)
    (hcc : env.ctxCreate = none) (hws : env.sink .workflowStarted = none) :
    (SecurityWorkflow.execute env wf).wf.steps =
      (execSteps env [] wf.steps wf.results wf.currentStep).steps ∧
    (SecurityWorkflow.execute env wf).wf.results =
      (execSteps env [] wf.steps wf.results wf.currentStep).results ∧
    (SecurityWorkflow.execute env wf).wf.currentStep =
      (execSteps env [] wf.steps wf.results wf.currentStep).cur ∧
    ((execSteps env [] wf.steps wf.results wf.currentStep).err ≠ none →
      (SecurityWorkflow.execute env wf).wf.status = WorkflowStatus.failed) ∧
    (∀ k, cleanupCount k (SecurityWorkflow.execute env wf).trace =
      cleanupCount k (execSteps env [] wf.steps wf.results wf.currentStep).trace) := by
  unfold SecurityWorkflow.execute workflowFail
  cases hcz : env.ctxCreate with
  | some m => rw [hcz] at hcc; simp at hcc
  | none =>
    cases hwz : env.sink .workflowStarted with
    | some m => rw [hwz] at hws; simp at hws
    | none =>
      cases herr : (execSteps env [] wf.steps wf.results wf.currentStep).err <;>
        cases env.sink .workflowCompleted <;>
          cases env.sink .workflowFailed <;>
            simp [herr, cleanupCount_cons_emit, cleanupCount_append,
              cleanupCount_single_emit, cleanupCount_nil]

theorem nodup_name_eq (l : List WorkflowStep)
    (hnames : (l.map (fun s => s.name)).Nodup)
    (j : Nat) (stJ : WorkflowStep) (hj : l[j]? = some stJ)
    (st2 : WorkflowStep) (hmem : st2 ∈ l) (hname : st2.name = stJ.name) :
    st2 = stJ := by
  obtain ⟨k, hk, hkeq⟩ := List.getElem_of_mem hmem
  have hk2 : l[k]? = some st2 := by
    rw [List.getElem?_eq_getElem hk, hkeq]
  have hmk : (l.map (fun s => s.name))[k]? = some st2.name := by
    simp [hk2]
  have hmj : (l.map (fun s => s.name))[j]? = some stJ.name := by
    simp [hj]
  have hkj : k = j := by
    refine List.getElem?_inj (by simpa using hk) hnames ?_
    rw [hmk, hmj, hname]
  subst hkj
  rw [hk2] at hj
  exact Option.some.inj hj

/-- Claim C8 (amended): during a run of `execute` on a freshly constructed
workflow, every status ever assigned to the step at index `j` extends a
chain from Pending along the transitions Pending→Running,
Running→Completed, Running→Failed, Pending→Skipped or Completed→Failed
(the last arising when a context-store or step-level audit-sink failure
strikes after the step's tool call succeeded); and a step that was
Skipped by condition gating never has its tool invoked in the same run,
so Skipped is never reached after an execution attempt. -/
theorem step_status_transitions (env : Env) (wf : SecurityWorkflow)
    (hinit : wf.InitState) (j : Nat) :
    chainOK stepRel
      (WorkflowStepStatus.pending ::
        statusHistory j (SecurityWorkflow.execute env wf).trace) = true ∧
    (RunAction.setStatus j WorkflowStepStatus.skipped ∈
        (SecurityWorkflow.execute env wf).trace →
      ∀ t, RunAction.invokeTool j t ∉ (SecurityWorkflow.execute env wf).trace) := by
  constructor
  · rcases execute_statusHistory env wf j with h | h
    · rw [h]
      exact (execSteps_hist env wf.steps [] wf.results wf.currentStep j).2 (by simp)
    · rw [h]
      exact chainOK_singleton stepRel .pending
  · intro hskip t hinv
    rcases execute_trace_cases env wf _ hskip with h1 | h1 | h1 | h1
    · rcases execute_trace_cases env wf _ hinv with h2 | h2 | h2 | h2
      · obtain ⟨-, st2, hg2, hc2⟩ :=
          (execSteps_attr env wf.steps [] wf.results wf.currentStep).2.1 j h1
        obtain ⟨-, st3, hg3, hc3⟩ :=
          (execSteps_attr env wf.steps [] wf.results wf.currentStep).1 j t h2
        rw [hg2] at hg3
        rw [← Option.some.inj hg3] at hc3
        rw [hc2] at hc3
        exact Bool.false_ne_true hc3
      · simp at h2
      · simp at h2
      · simp at h2
    · simp at h1
    · simp at h1
    · simp at h1

def envC8w : Env := { tool := fun _ _ => .success 0 }

def wfC8w : SecurityWorkflow :=
  { name := "w8w", steps := [{ name := "gated", conditions := [false] }] }

/-- Witness for the amended C8: a one-step run whose step is skipped by
condition gating; its status chain is allowed and its tool is never
invoked. -/
theorem step_status_transitions_witness :
    chainOK stepRel
      (WorkflowStepStatus.pending ::
        statusHistory 0 (SecurityWorkflow.execute envC8w wfC8w).trace) = true ∧
    RunAction.invokeTool 0 0 ∉ (SecurityWorkflow.execute envC8w wfC8w).trace :=
  ⟨(step_status_transitions envC8w wfC8w (by decide) 0).1,
   (step_status_transitions envC8w wfC8w (by decide) 0).2 (by decide) 0⟩

/-- Claim C6: in a run of `execute` on a freshly constructed workflow
with distinct step names, a reached step (all steps before it complete
without aborting the loop) one of whose condition predicates is false is
set to Skipped and the loop proceeds: its tool is never invoked, no
step-level audit event carrying its name is emitted, its name gets no
results entry, and when a further step exists the loop moves past it
(currentStep advances beyond it). -/
theorem condition_gating_skips (env : Env) (wf : SecurityWorkflow)
    (hinit : wf.InitState)
    (hnames : (wf.steps.map (fun s => s.name)).Nodup)
    (hcc : env.ctxCreate = none)
    (hws : env.sink .workflowStarted = none)
    (j : Nat) (stJ : WorkflowStep)
    (hj : wf.steps[j]? = some stJ)
    (hcond : conditionsMet stJ = false)
    (hpre : ∀ k st2, k < j → wf.steps[k]? = some st2 → ¬ stepAborts env k st2) :
    (SecurityWorkflow.execute env wf).wf.steps[j]? =
      some { stJ with status := WorkflowStepStatus.skipped } ∧
    (∀ t, RunAction.invokeTool j t ∉ (SecurityWorkflow.execute env wf).trace) ∧
    (∀ e, stepEventName e = some stJ.name →
      RunAction.emit e ∉ (SecurityWorkflow.execute env wf).trace) ∧
    entryCount (SecurityWorkflow.execute env wf).wf.results stJ.name = 0 ∧
    (j + 1 < wf.steps.length →
      j + 1 ≤ (SecurityWorkflow.execute env wf).wf.currentStep) := by
  obtain ⟨hrsteps, hrres, hrcur, -, -⟩ := execute_run env wf hcc hws
  have hj0 : wf.steps[j - ([] : List WorkflowStep).length]? = some stJ := by
    simpa using hj
  have hpre0 : ∀ k st2, ([] : List WorkflowStep).length ≤ k → k < j →
      wf.steps[k - ([] : List WorkflowStep).length]? = some st2 →
      ¬ stepAborts env k st2 := by
    intro k st2 _ hk hk2
    exact hpre k st2 hk (by simpa using hk2)
  have hskip := execSteps_skipAt env wf.steps [] wf.results wf.currentStep j stJ
    (by simp) hj0 hcond hpre0
  obtain ⟨hstat, hcur0, hres0, -, -, hsteps0⟩ := hinit
  refine ⟨?_, ?_, ?_, ?_, ?_⟩
  · rw [hrsteps]
    exact hskip.1
  · intro t hmem
    rcases execute_trace_cases env wf _ hmem with h1 | h1 | h1 | h1
    · obtain ⟨-, st2, hg2, hc2⟩ :=
        (execSteps_attr env wf.steps [] wf.results wf.currentStep).1 j t h1
      rw [hj0] at hg2
      rw [← Option.some.inj hg2] at hc2
      rw [hcond] at hc2
      exact Bool.false_ne_true hc2
    · simp at h1
    · simp at h1
    · simp at h1
  · intro e hen hmem
    rcases execute_trace_cases env wf _ hmem with h1 | h1 | h1 | h1
    · obtain ⟨st2, hmem2, hname2, hc2⟩ :=
        (execSteps_attr env wf.steps [] wf.results wf.currentStep).2.2.2
          e stJ.name h1 hen
      rw [nodup_name_eq wf.steps hnames j stJ hj st2 hmem2 hname2] at hc2
      rw [hcond] at hc2
      exact Bool.false_ne_true hc2
    · have he : e = AuditEvent.workflowStarted := by injection h1
      rw [he] at hen
      simp [stepEventName] at hen
    · have he : e = AuditEvent.workflowFailed := by injection h1
      rw [he] at hen
      simp [stepEventName] at hen
    · have he : e = AuditEvent.workflowCompleted := by injection h1
      rw [he] at hen
      simp [stepEventName] at hen
  · rw [hrres]
    have hok := execSteps_resOK env wf.steps [] wf.results wf.currentStep
      (by intro j2 st2 hj2; simp at hj2)
      (fun st2 hm => (hsteps0 st2 hm).1)
      (by intro st2 hm; simp [hres0, entryCount])
      (by intro st2 hm st3 hm3; simp at hm3)
      (List.pairwise_map.mp hnames)
      j { stJ with status := WorkflowStepStatus.skipped } hskip.1
    have := hok.2.1 (Or.inr (Or.inl rfl))
    simpa using this
  · intro hlen
    rw [hrcur]
    exact hskip.2 (by simpa using hlen)

def envC6w : Env := { tool := fun _ _ => .success 5 }

def wfC6w : SecurityWorkflow :=
  { name := "w6w",
    steps := [{ name := "a" }, { name := "b", conditions := [false] },
      { name := "c" }] }

/-- Witness for C6: in a three-step run whose middle step is gated by a
false condition, that step ends Skipped, its tool is not invoked, no
step_completed event carries its name, it has no results entry, and the
loop advances past it. -/
theorem condition_gating_skips_witness :
    (SecurityWorkflow.execute envC6w wfC6w).wf.steps[1]? =
      some { ({ name := "b", conditions := [false] } : WorkflowStep) with
        status := WorkflowStepStatus.skipped } ∧
    RunAction.invokeTool 1 0 ∉ (SecurityWorkflow.execute envC6w wfC6w).trace ∧
    RunAction.emit (AuditEvent.stepCompleted "b") ∉
      (SecurityWorkflow.execute envC6w wfC6w).trace ∧
    entryCount (SecurityWorkflow.execute envC6w wfC6w).wf.results "b" = 0 ∧
    2 ≤ (SecurityWorkflow.execute envC6w wfC6w).wf.currentStep := by
  have hpre : ∀ k st2, k < 1 → wfC6w.steps[k]? = some st2 →
      ¬ stepAborts envC6w k st2 := by
    intro k st2 hk hke
    have hk0 : k = 0 := by omega
    subst hk0
    have hst : st2 = { name := "a" } := by
      have : wfC6w.steps[0]? = some ({ name := "a" } : WorkflowStep) := by decide
      rw [this] at hke
      exact (Option.some.inj hke).symm
    subst hst
    decide
  have h := condition_gating_skips envC6w wfC6w (by decide) (by decide) rfl rfl 1
    { name := "b", conditions := [false] } (by decide) (by decide) hpre
  exact ⟨h.1, h.2.1 0, h.2.2.1 (AuditEvent.stepCompleted "b") (by decide),
    h.2.2.2.1, h.2.2.2.2 (by decide)⟩

/-- Claim C9: when the context-store update for a reached step fails
after the step's tool call succeeded, the run overwrites that step from
Completed (with its result stored) to Failed, stores the context-store
failure message as the step's error, runs the step's cleanup exactly when
one is present, fails the workflow, and leaves the step's single results
entry in place. -/
theorem ctx_failure_overwrites_completed (env : Env) (wf : SecurityWorkflow)
    (hnames : (wf.steps.map (fun s => s.name)).Nodup)
    (hcc : env.ctxCreate = none)
    (hws : env.sink .workflowStarted = none)
    (j : Nat) (stJ : WorkflowStep) (v : Nat) (m : String)
    (hj : wf.steps[j]? = some stJ)
    (hcond : conditionsMet stJ = true)
    (hret : (runStep env j stJ).ret = Except.ok v)
    (hctx : env.ctxUpdate j = some m)
    (hec : entryCount wf.results stJ.name = 0)
    (hpre : ∀ k st2, k < j → wf.steps[k]? = some st2 → ¬ stepAborts env k st2) :
    (SecurityWorkflow.execute env wf).wf.steps[j]? =
      some { (runStep env j stJ).step with
        status := WorkflowStepStatus.failed, error := some m } ∧
    (runStep env j stJ).step.status = WorkflowStepStatus.completed ∧
    (runStep env j stJ).step.result = some v ∧
    entryCount (SecurityWorkflow.execute env wf).wf.results stJ.name = 1 ∧
    (SecurityWorkflow.execute env wf).wf.status = WorkflowStatus.failed ∧
    cleanupCount j (SecurityWorkflow.execute env wf).trace =
      (if stJ.hasCleanup then 1 else 0) := by
  obtain ⟨hrsteps, hrres, hrcur, hrfail, hrclean⟩ := execute_run env wf hcc hws
  have hj0 : wf.steps[j - ([] : List WorkflowStep).length]? = some stJ := by
    simpa using hj
  have hpre0 : ∀ k st2, ([] : List WorkflowStep).length ≤ k → k < j →
      wf.steps[k - ([] : List WorkflowStep).length]? = some st2 →
      ¬ stepAborts env k st2 ∧ st2.name ≠ stJ.name := by
    intro k st2 _ hk hke
    have hke2 : wf.steps[k]? = some st2 := by simpa using hke
    refine ⟨hpre k st2 hk hke2, ?_⟩
    intro hname
    have hlen : k < wf.steps.length := by
      by_contra hge
      rw [List.getElem?_eq_none (by omega)] at hke2
      simp at hke2
    have hmk : (wf.steps.map (fun s => s.name))[k]? = some st2.name := by
      simp [hke2]
    have hmj : (wf.steps.map (fun s => s.name))[j]? = some stJ.name := by
      simp [hj]
    have hkj : k = j := by
      refine List.getElem?_inj (by simpa using hlen) hnames ?_
      rw [hmk, hmj, hname]
    omega
  have habort := execSteps_abortAt env wf.steps [] wf.results wf.currentStep
    j stJ v m (by simp) hj0 hcond hret hctx hec hpre0
  have hok := runStep_ok env j stJ v hret
  refine ⟨?_, hok.1, hok.2, ?_, ?_, ?_⟩
  · rw [hrsteps]
    exact habort.1
  · rw [hrres]
    exact habort.2.1
  · exact hrfail (by rw [habort.2.2.1]; simp)
  · rw [hrclean j]
    exact habort.2.2.2.2

def envC9w : Env :=
  { tool := fun _ _ => .success 7, ctxUpdate := fun _ => some "ctx down" }

def wfC9w : SecurityWorkflow :=
  { name := "w9w", steps := [{ name := "s", hasCleanup := true }] }

/-- Witness for C9: a one-step run whose tool succeeds (result 7) but
whose context update raises "ctx down": the step ends Failed with that
error while keeping its Completed-time result and results entry, its
cleanup runs once, and the workflow is Failed. -/
theorem ctx_failure_overwrites_completed_witness :
    (SecurityWorkflow.execute envC9w wfC9w).wf.steps[0]? =
      some { (runStep envC9w 0 { name := "s", hasCleanup := true }).step with
        status := WorkflowStepStatus.failed, error := some "ctx down" } ∧
    (runStep envC9w 0 { name := "s", hasCleanup := true }).step.status =
      WorkflowStepStatus.completed ∧
    (runStep envC9w 0 { name := "s", hasCleanup := true }).step.result = some 7 ∧
    entryCount (SecurityWorkflow.execute envC9w wfC9w).wf.results "s" = 1 ∧
    (SecurityWorkflow.execute envC9w wfC9w).wf.status = WorkflowStatus.failed ∧
    cleanupCount 0 (SecurityWorkflow.execute envC9w wfC9w).trace =
      (if ({ name := "s", hasCleanup := true } : WorkflowStep).hasCleanup
        then 1 else 0) :=
  ctx_failure_overwrites_completed envC9w wfC9w (by decide) rfl rfl 0
    { name := "s", hasCleanup := true } 7 "ctx down" (by decide) (by decide)
    rfl rfl (by decide)
    (fun k st2 hk _ => absurd hk (Nat.not_lt_zero k))
